import Mathlib

/-!
Shallow embedding of the libwordentropy passphrase generator
(`generate.go`, `util.go`).  Go's `crypto/rand`-backed draws are modelled
by an oracle stream `s : Nat → Nat` together with a cursor `k`: each call
to `random_range max` consumes one stream value `r` and yields `r % max`
(as `r` ranges over all naturals this covers exactly the uniform support
`[0, max)` of Go's `rand.Int`).  Go panics (`rand.Int` with `max ≤ 0`,
out-of-range slice indexing) are modelled as `none`.
-/

namespace Wordentropy

/-- `util.go` `random_range`: `rand.Int(rand.Reader, max)` is uniform on
`[0, max)` and panics when `max ≤ 0`. -/
def random_range (max : Int) (r : Nat) : Option Int :=
  if max ≤ 0 then none else some ((r : Int) % max)

/-- `util.go` `random_choice`: `l[random_range(int64(len(l)-1))]`. -/
def random_choice (l : List String) (r : Nat) : Option String :=
  (random_range ((l.length : Int) - 1) r).bind fun i => l.get? i.toNat

/-- `util.go` `random_digit`. -/
def random_digit (r : Nat) : Option String :=
  random_choice ["0", "1", "2", "3", "4", "5", "6", "7", "8", "9"] r

-- Constants from `generate.go`.
def count_max : Nat := 99
def count_default : Nat := 4
def length_max : Nat := 99
def length_default : Nat := 5
def fragment_max : Nat := 99
def fragment_default : Nat := 4

/-- `generate.go` `grammar_rules`: word_type -> "can be followed by...".
A Go map lookup of a missing key yields the nil slice, hence `[]`. -/
def grammar_rules (t : String) : List String :=
  if t = "snoun" then ["adverb", "verb", "pronoun", "conjunction"]
  else if t = "pnoun" then ["adverb", "verb", "pronoun", "conjunction"]
  else if t = "verb" then
    ["snoun", "pnoun", "preposition", "adjective", "conjunction", "sarticle", "particle"]
  else if t = "adjective" then ["snoun", "pnoun"]
  else if t = "adverb" then ["verb"]
  else if t = "preposition" then ["snoun", "pnoun", "adverb", "adjective", "verb"]
  else if t = "pronoun" then ["verb", "adverb", "conjunction"]
  else if t = "conjunction" then ["snoun", "pnoun", "pronoun", "verb", "sarticle", "particle"]
  else if t = "sarticle" then ["snoun", "adjective"]
  else if t = "particle" then ["pnoun", "adjective"]
  else if t = "interjection" then
    ["snoun", "pnoun", "preposition", "adjective", "conjunction", "sarticle", "particle"]
  else []

/-- `generate.go` `default_symbols`. -/
def default_symbols : List String :=
  ["!", "@", "#", "$", "%", "^", "&", "*", "(", ")", "-", "+", "_", "="]

/-- `generate.go` `word_types`. -/
def word_types : List String :=
  ["snoun", "pnoun", "verb", "adjective", "adverb", "preposition", "pronoun",
   "conjunction", "sarticle", "particle", "interjection"]

/-- `generate.go` `Generator`: the word map is a Go `map[string][]string`
(modelled as an association list) and `offensive` a `map[string]uint` used
only for membership, modelled as the list of its keys. -/
structure Generator where
  word_map : List (String × List String)
  offensive : List String

/-- `generate.go` `GenerateOptions` (Go `uint` fields become `Nat`). -/
structure GenerateOptions where
  Count : Nat
  Length : Nat
  Magic_fragment_length : Nat
  Prudish : Bool
  No_spaces : Bool
  Add_digit : Bool
  Add_symbol : Bool
  Symbols : List String

/-- The Go zero value `GenerateOptions{}`. -/
def default_GenerateOptions : GenerateOptions :=
  ⟨0, 0, 0, false, false, false, false, []⟩

/-- Go map read `m[k]` with its `ok` flag. -/
def map_lookup (m : List (String × List String)) (k : String) : Option (List String) :=
  (m.find? fun p => p.1 == k).map Prod.snd

-- Models of the Go `strings` standard-library functions used by the code,
-- at the character-list level (single-character separators only, which is
-- all the code uses: `" "` and `"\t"`).

/-- Go `strings.Split(s, sep)` for a one-character `sep`, on char lists:
the substrings between occurrences of `c`. -/
def split_char (c : Char) : List Char → List (List Char)
  | [] => [[]]
  | x :: xs =>
    if x = c then [] :: split_char c xs
    else
      match split_char c xs with
      | [] => [[x]]
      | t :: ts => (x :: t) :: ts

/-- Go `strings.Split(s, sep)` for a one-character separator. -/
def strings_Split1 (c : Char) (s : String) : List String :=
  (split_char c s.data).map fun l => ⟨l⟩

/-- Go `strings.Join(l, sep)`: elements with `sep` in between. -/
def join_list (sep : List Char) : List (List Char) → List Char
  | [] => []
  | [x] => x
  | x :: y :: rest => x ++ sep ++ join_list sep (y :: rest)

/-- Go `strings.Join`. -/
def strings_Join (l : List String) (sep : String) : String :=
  ⟨join_list sep.data (l.map String.data)⟩

/-- Go `unicode.IsSpace`: the Unicode White_Space property. -/
def go_isSpace (c : Char) : Bool :=
  c == ' ' || c == '\t' || c == '\n' || c == Char.ofNat 11 || c == Char.ofNat 12 ||
  c == '\r' || c == Char.ofNat 0x85 || c == Char.ofNat 0xA0 || c == Char.ofNat 0x1680 ||
  (0x2000 ≤ c.toNat && c.toNat ≤ 0x200A) || c == Char.ofNat 0x2028 ||
  c == Char.ofNat 0x2029 || c == Char.ofNat 0x202F || c == Char.ofNat 0x205F ||
  c == Char.ofNat 0x3000

/-- Go `strings.TrimSpace`: drop leading and trailing white space. -/
def strings_TrimSpace (s : String) : String :=
  ⟨((s.data.dropWhile go_isSpace).reverse.dropWhile go_isSpace).reverse⟩

/-- Go `strings.Contains(s, needle)` for a one-character needle. -/
def strings_Contains1 (s : String) (c : Char) : Bool :=
  s.data.contains c

-- `generate.go` `check_options`, staged into one helper per source
-- check so each stage can be reasoned about separately.  Mutation of the
-- options struct through the pointer is modelled by passing the updated
-- value along.

/-- Last stage of `check_options`: default the symbol set when empty. -/
def check_symbols (o : GenerateOptions) : Except String GenerateOptions :=
  .ok (if o.Symbols.length = 0 then { o with Symbols := default_symbols } else o)

/-- `check_options` stage: bound then zero-default `Magic_fragment_length`. -/
def check_fragment (o : GenerateOptions) : Except String GenerateOptions :=
  if fragment_max < o.Magic_fragment_length then
    .error "Fragment length exceeds max: 99"
  else
    check_symbols (if o.Magic_fragment_length = 0 then
      { o with Magic_fragment_length := fragment_default } else o)

/-- `check_options` stage: bound then zero-default `Length`. -/
def check_length (o : GenerateOptions) : Except String GenerateOptions :=
  if length_max < o.Length then
    .error "Length exceeds max: 99"
  else
    check_fragment (if o.Length = 0 then { o with Length := length_default } else o)

/-- `check_options` stage: the empty-wordlist guard, then bound and
zero-default `Count`. -/
def check_count (g : Generator) (o : GenerateOptions) : Except String GenerateOptions :=
  if g.word_map.length = 0 then
    .error "Empty wordlist, call LoadWords() first"
  else if count_max < o.Count then
    .error "Count exceeds max: 99"
  else
    check_length (if o.Count = 0 then { o with Count := count_default } else o)

/-- `generate.go` `check_options` (a nil options pointer is replaced by
the zero value, as in the source). -/
def check_options (g : Generator) (options : Option GenerateOptions) :
    Except String GenerateOptions :=
  check_count g (options.getD default_GenerateOptions)

/-- The closure `grw` inside `generate.go` `random_word`: one uniform draw
from `words` paired with the offensive-set membership flag. -/
def grw (g : Generator) (words : List String) (r : Nat) : Option (String × Bool) :=
  (random_choice words r).map fun word => (word, g.offensive.contains word)

/-- The retry loop of `random_word`, structurally recursive on the fuel
`10 - i` (when `i < 10` the fuel is positive, and it drops by one exactly
as `i` rises by one, so the guard `off && i < 10` is tested precisely as
in the source and the fuel-exhausted base case coincides with the guard
failing on `i`). -/
def retry_grw_aux (g : Generator) (words : List String) (s : Nat → Nat) :
    Nat → Nat → Nat → String → Bool → Option (String × Bool × Nat × Nat)
  | _, k, i, word, false => some (word, false, i, k)
  | 0, k, i, word, off => some (word, off, i, k)
  | fuel + 1, k, i, word, off =>
    if off = true ∧ i < 10 then
      match grw g words (s k) with
      | none => none
      | some (w, o) => retry_grw_aux g words s fuel (k + 1) (i + 1) w o
    else
      some (word, off, i, k)

/-- The retry loop of `random_word`:
`for i = 0; off && i < 10; i++ { word, off = grw(words) }`.
Returns the final `(word, off, i)` and the advanced oracle cursor. -/
def retry_grw (g : Generator) (words : List String) (s : Nat → Nat) (k i : Nat)
    (word : String) (off : Bool) : Option (String × Bool × Nat × Nat) :=
  retry_grw_aux g words s (10 - i) k i word off

/-- After the retry loop of `random_word`: `if i >= 10 { word = "" }`,
then return the word. -/
def random_word_retry (g : Generator) (words : List String) (s : Nat → Nat)
    (k : Nat) (word : String) (off : Bool) : Option (String × Nat) :=
  match retry_grw g words s (k + 1) 0 word off with
  | none => none
  | some (w, _, i, k2) => some ((if 10 ≤ i then "" else w), k2)

/-- The body of `random_word` once the word list for the type is found. -/
def random_word_from (g : Generator) (words : List String) (o : GenerateOptions)
    (s : Nat → Nat) (k : Nat) : Option (String × Nat) :=
  match grw g words (s k) with
  | none => none
  | some (word, off) =>
    if o.Prudish = true ∧ off = true then random_word_retry g words s k word off
    else some (word, k + 1)

/-- `generate.go` `random_word`: draw a word of the given type, with the
bounded offensive-filter retry (`word = ""` after the loop when `i >= 10`)
and the `"()"` placeholder for a type missing from the word map. -/
def random_word (g : Generator) (word_type : String) (o : GenerateOptions)
    (s : Nat → Nat) (k : Nat) : Option (String × Nat) :=
  match map_lookup g.word_map word_type with
  | some words => random_word_from g words o s k
  | none => some ("()", k)

/-- The initial draw of `generate_fragment`:
`random_range(int64(len(word_types) - 1))`. -/
def fragment_start_index (r : Nat) : Option Int :=
  random_range ((word_types.length : Int) - 1) r

/-- The successor-type selection inside `generate_fragment`'s loop: with
`rules = grammar_rules[word_types[prev_type_index]]` and
`next_word_type_count = len(rules) - 1`, pick `rules[random_range(count)]`
when the count is positive and `rules[0]` otherwise.  The second component
is the number of oracle values consumed (1 or 0). -/
def next_word_type (prev_type_index : Nat) (r : Nat) : Option (String × Nat) :=
  let rules := grammar_rules (word_types.getD prev_type_index "")
  let next_word_type_count : Int := (rules.length : Int) - 1
  if 0 < next_word_type_count then
    match random_range next_word_type_count r with
    | none => none
    | some i => (rules.get? i.toNat).map fun t => (t, 1)
  else
    (rules.get? 0).map fun t => (t, 0)

/-- `range word_types { if v == this_word_type { prev_type_index = j } }`:
the last index of `word_types` holding `this_word_type`, else `prev`. -/
def update_prev_loop (this_word_type : String) (l : List (Nat × String)) (prev : Nat) : Nat :=
  match l with
  | [] => prev
  | p :: rest => update_prev_loop this_word_type rest (if p.2 = this_word_type then p.1 else prev)

/-- The `prev_type_index` update of `generate_fragment`. -/
def update_prev_index (this_word_type : String) (prev : Nat) : Nat :=
  update_prev_loop this_word_type word_types.enum prev

/-- The loop `for i := uint(1); i < fragment_length; i++` of
`generate_fragment`, producing the last `remaining` slots. -/
def fragment_loop (g : Generator) (o : GenerateOptions) (remaining prev : Nat)
    (s : Nat → Nat) (k : Nat) : Option (List String × Nat) :=
  match remaining with
  | 0 => some ([], k)
  | n + 1 =>
    (next_word_type prev (s k)).bind fun td =>
      (random_word g td.1 o s (k + td.2)).bind fun wk =>
        (fragment_loop g o n (update_prev_index td.1 prev) s wk.2).map
          fun p => (wk.1 :: p.1, p.2)

/-- `generate.go` `generate_fragment`.  `make([]string, 0)` followed by
`fragment_slice[0] = ...` panics, hence `none` for a zero length. -/
def generate_fragment (g : Generator) (o : GenerateOptions) (s : Nat → Nat) (k : Nat) :
    Option (List String × Nat) :=
  let fragment_length := o.Magic_fragment_length
  if fragment_length = 0 then none
  else
    (fragment_start_index (s k)).bind fun idx =>
      (random_word g (word_types.getD idx.toNat "") o s (k + 1)).bind fun wk =>
        (fragment_loop g o (fragment_length - 1) idx.toNat s wk.2).map
          fun p => (wk.1 :: p.1, p.2)

/-- The `for i := uint(1); i <= iterations; i++` loop of
`generate_passphrase`: each pass appends a conjunction then a fragment. -/
def passphrase_iter (g : Generator) (o : GenerateOptions) (n : Nat)
    (s : Nat → Nat) (k : Nat) : Option (List String × Nat) :=
  match n with
  | 0 => some ([], k)
  | m + 1 =>
    (random_word g "conjunction" o s k).bind fun ck =>
      (generate_fragment g o s ck.2).bind fun fk =>
        (passphrase_iter g o m s fk.2).map fun p => (ck.1 :: (fk.1 ++ p.1), p.2)

/-- `generate.go` `generate_passphrase`: `make([]string, 1)` seeds the
slice with one empty string, then one fragment, then
`iterations = Length / Magic_fragment_length` passes of
conjunction-plus-fragment. -/
def generate_passphrase (g : Generator) (o : GenerateOptions)
    (s : Nat → Nat) (k : Nat) : Option (List String × Nat) :=
  let iterations := o.Length / o.Magic_fragment_length
  (generate_fragment g o s k).bind fun fk =>
    (passphrase_iter g o iterations s fk.2).map fun p => ("" :: (fk.1 ++ p.1), p.2)

/-- One pass of the `for i := uint(0); i < options.Count; i++` loop of
`GeneratePassphrases`, iterated `n` times: join the phrase slice with
spaces, re-split on spaces, slice to `Length+1` tokens (a Go slice
expression past the length panics), join with `sep`, trim, and append the
optional digit and symbol. -/
def passphrases_loop (g : Generator) (o : GenerateOptions) (sep : String) (n : Nat)
    (s : Nat → Nat) (k : Nat) : Option (List String × Nat) :=
  match n with
  | 0 => some ([], k)
  | m + 1 =>
    (generate_passphrase g o s k).bind fun pk =>
      let pj := strings_Join pk.1 " "
      let ps2 := strings_Split1 ' ' pj
      if o.Length + 1 ≤ ps2.length then
        let ps3 := ps2.take (o.Length + 1)
        let pp := strings_TrimSpace (strings_Join ps3 sep)
        (if o.Add_digit then (random_digit (s pk.2)).map fun d => (pp ++ d, pk.2 + 1)
         else some (pp, pk.2)).bind fun p1 =>
          (if o.Add_symbol then
            (random_choice o.Symbols (s p1.2)).map fun c => (p1.1 ++ c, p1.2 + 1)
           else some p1).bind fun p2 =>
            (passphrases_loop g o sep m s p2.2).map fun p => (p2.1 :: p.1, p.2)
      else none

/-- `generate.go` `GeneratePassphrases`.  `none` models a Go panic; a
returned Go `error` is `some (.error e)`.  The nil replacement inside
`check_options` (`o = &GenerateOptions{}`) rebinds only the callee's copy
of the pointer, so when a nil `options` passes validation the caller
still dereferences nil at `make([]string, options.Count)`: a panic.  For
a non-nil `options` the callee's field mutations act through the shared
pointer, so the caller reads exactly the validated value the model's
`check_options` returns. -/
def GeneratePassphrases (g : Generator) (options : Option GenerateOptions)
    (s : Nat → Nat) : Option (Except String (List String)) :=
  match check_options g options with
  | .error e => some (.error e)
  | .ok o =>
    match options with
    | none => none
    | some _ =>
      let sep := if o.No_spaces then "" else " "
      (passphrases_loop g o sep o.Count s 0).map fun p => .ok p.1

-- Word-list loading (`generate.go` `load_wordmap`).

/-- The word map `load_wordmap` starts from: all eleven categories, empty. -/
def initial_word_map : List (String × List String) :=
  [("snoun", []), ("pnoun", []), ("verb", []), ("adjective", []), ("adverb", []),
   ("preposition", []), ("pronoun", []), ("conjunction", []), ("sarticle", []),
   ("particle", []), ("interjection", [])]

/-- The per-line classification of `load_wordmap`: split on the tab, read
the POS tag's marker characters in the documented priority order, and
return `(word_type, word)`; `none` when the line is skipped (bad field
count, unknown word type, or zero-length word). -/
def classify_line (line : String) : Option (String × String) :=
  let line_array := strings_Split1 '\t' line
  if line_array.length ≠ 2 then none
  else
    let word := line_array.getD 0 ""
    let pos_tag := line_array.getD 1 ""
    let plural :=
      (strings_Contains1 pos_tag 'N' || strings_Contains1 pos_tag 'D' ||
        strings_Contains1 pos_tag 'I') && strings_Contains1 pos_tag 'P'
    let word_type :=
      if strings_Contains1 pos_tag 'D' || strings_Contains1 pos_tag 'I' then
        some (if plural then "particle" else "sarticle")
      else if strings_Contains1 pos_tag 'N' || strings_Contains1 pos_tag 'h' ||
          strings_Contains1 pos_tag 'o' then
        some (if plural then "pnoun" else "snoun")
      else if strings_Contains1 pos_tag 'V' || strings_Contains1 pos_tag 't' ||
          strings_Contains1 pos_tag 'i' then some "verb"
      else if strings_Contains1 pos_tag 'A' then some "adjective"
      else if strings_Contains1 pos_tag 'v' then some "adverb"
      else if strings_Contains1 pos_tag 'C' then some "conjunction"
      else if strings_Contains1 pos_tag 'p' || strings_Contains1 pos_tag 'P' then
        some "preposition"
      else if strings_Contains1 pos_tag 'r' then some "pronoun"
      else if strings_Contains1 pos_tag '!' then some "interjection"
      else none
    match word_type with
    | none => none
    | some t => if 0 < word.length then some (t, word) else none

/-- Appending a word to its category's entry in the word map. -/
def map_append (m : List (String × List String)) (k : String) (w : String) :
    List (String × List String) :=
  m.map fun p => if p.1 = k then (p.1, p.2 ++ [w]) else p

/-- One scanner iteration of `load_wordmap`. -/
def load_line (m : List (String × List String)) (line : String) :
    List (String × List String) :=
  match classify_line line with
  | none => m
  | some (t, w) => map_append m t w

/-- `generate.go` `load_wordmap`, over the file's lines. -/
def load_wordmap (lines : List String) : List (String × List String) :=
  lines.foldl load_line initial_word_map

/-! ### Lemmas about the `strings` models -/

theorem split_char_ne_nil (c : Char) (s : List Char) : split_char c s ≠ [] := by
  induction s with
  | nil => simp [split_char]
  | cons x xs ih =>
    simp only [split_char]
    by_cases hx : x = c
    · simp [hx]
    · simp only [if_neg hx]
      rcases h : split_char c xs with _ | ⟨t, ts⟩
      · exact absurd h ih
      · simp

theorem split_char_append_sep (c : Char) (a b : List Char) :
    split_char c (a ++ c :: b) = split_char c a ++ split_char c b := by
  induction a with
  | nil => simp [split_char]
  | cons x xs ih =>
    by_cases hx : x = c
    · simp [split_char, hx, ih]
    · rcases h : split_char c xs with _ | ⟨t, ts⟩
      · exact absurd h (split_char_ne_nil c xs)
      · simp only [List.cons_append, split_char, if_neg hx, List.append_eq]
        rw [ih, h]
        rfl

theorem split_char_no_sep (c : Char) (s : List Char) (h : ∀ x ∈ s, x ≠ c) :
    split_char c s = [s] := by
  induction s with
  | nil => rfl
  | cons x xs ih =>
    have hx : x ≠ c := h x (List.mem_cons_self x xs)
    have hxs := ih fun y hy => h y (List.mem_cons_of_mem x hy)
    simp [split_char, if_neg hx, hxs]

theorem mem_split_char (c : Char) (s : List Char) (t : List Char)
    (ht : t ∈ split_char c s) : c ∉ t := by
  induction s generalizing t with
  | nil =>
    simp only [split_char, List.mem_singleton] at ht
    subst ht; simp
  | cons x xs ih =>
    simp only [split_char] at ht
    by_cases hx : x = c
    · rw [if_pos hx] at ht
      rcases List.mem_cons.mp ht with h1 | h1
      · subst h1; simp
      · exact ih t h1
    · rw [if_neg hx] at ht
      rcases h : split_char c xs with _ | ⟨u, us⟩
      · exact absurd h (split_char_ne_nil c xs)
      · rw [h] at ht
        rcases List.mem_cons.mp ht with h1 | h1
        · subst h1
          intro hc
          rcases List.mem_cons.mp hc with h2 | h2
          · exact hx h2.symm
          · exact ih u (h ▸ List.mem_cons_self u us) h2
        · exact ih t (h ▸ List.mem_cons_of_mem u h1)

theorem split_char_join (c : Char) (xss : List (List Char)) (h : xss ≠ []) :
    split_char c (join_list [c] xss) = (xss.map (split_char c)).flatten := by
  induction xss with
  | nil => exact absurd rfl h
  | cons x rest ih =>
    rcases rest with _ | ⟨y, ys⟩
    · simp [join_list]
    · have : join_list [c] (x :: y :: ys) = x ++ c :: join_list [c] (y :: ys) := by
        simp [join_list]
      rw [this, split_char_append_sep, ih (by simp)]
      simp

theorem join_length_le (L : List (List α)) (h : ∀ l ∈ L, l ≠ []) :
    L.length ≤ L.flatten.length := by
  induction L with
  | nil => simp
  | cons x rest ih =>
    have hx : x ≠ [] := h x (List.mem_cons_self x rest)
    have h1 : 1 ≤ x.length := by
      rcases x with _ | _
      · exact absurd rfl hx
      · simp
    have := ih fun l hl => h l (List.mem_cons_of_mem x hl)
    simp only [List.flatten_cons, List.length_append, List.length_cons]
    omega

theorem join_map_singleton (L : List (List Char)) :
    (L.map fun l => [l]).flatten = L := by
  induction L with
  | nil => rfl
  | cons x rest ih => simp [ih]

theorem string_mk_data (s : String) : String.mk s.data = s := rfl

theorem strings_Join_data (l : List String) (sep : String) :
    (strings_Join l sep).data = join_list sep.data (l.map String.data) := rfl

/-- Splitting the space-join of space-free strings recovers them. -/
theorem split_join_clean (ps : List String) (hne : ps ≠ [])
    (h : ∀ w ∈ ps, ' ' ∉ w.data) :
    strings_Split1 ' ' (strings_Join ps " ") = ps := by
  unfold strings_Split1
  rw [strings_Join_data]
  have hsep : (" " : String).data = [' '] := rfl
  rw [hsep, split_char_join ' ' (ps.map String.data) (by simpa using hne)]
  have : (ps.map String.data).map (split_char ' ') = (ps.map String.data).map fun l => [l] := by
    apply List.map_congr_left
    intro l hl
    rcases List.mem_map.mp hl with ⟨w, hw, rfl⟩
    exact split_char_no_sep ' ' w.data fun x hx hxc => h w hw (hxc ▸ hx)
  rw [this, join_map_singleton]
  have hid : (fun l => (⟨l⟩ : String)) ∘ String.data = id := rfl
  rw [List.map_map, hid, List.map_id]

/-- The number of tokens of the space-split of a space-join is at least
the number of joined strings. -/
theorem split_join_length_ge (ps : List String) (hne : ps ≠ []) :
    ps.length ≤ (strings_Split1 ' ' (strings_Join ps " ")).length := by
  unfold strings_Split1
  rw [strings_Join_data]
  have hsep : (" " : String).data = [' '] := rfl
  rw [hsep, split_char_join ' ' (ps.map String.data) (by simpa using hne)]
  have h1 : ((ps.map String.data).map (split_char ' ')).length ≤
      ((ps.map String.data).map (split_char ' ')).flatten.length :=
    join_length_le _ (by
      intro l hl
      rcases List.mem_map.mp hl with ⟨d, _, rfl⟩
      exact split_char_ne_nil ' ' d)
  simp only [List.length_map] at h1 ⊢
  simpa using h1

theorem go_isSpace_space : go_isSpace ' ' = true := by decide

theorem strings_TrimSpace_cons_space (l : List Char) :
    strings_TrimSpace ⟨' ' :: l⟩ = strings_TrimSpace ⟨l⟩ := by
  unfold strings_TrimSpace
  simp [List.dropWhile, go_isSpace_space]

theorem dropWhile_eq_self_append (p : Char → Bool) (xs ys : List Char)
    (hself : xs.dropWhile p = xs) (hne : xs ≠ []) :
    (xs ++ ys).dropWhile p = xs ++ ys := by
  rcases xs with _ | ⟨a, l⟩
  · exact absurd rfl hne
  · have ha : p a = false := by
      by_contra hpa
      have hpa' : p a = true := by
        cases h : p a
        · exact absurd h hpa
        · rfl
      rw [List.dropWhile_cons, hpa'] at hself
      have := congrArg List.length hself
      have hle := (List.dropWhile_sublist (l := l) p).length_le
      simp at this
      omega
    simp [List.dropWhile_cons, ha]

theorem trim_of_drops (J : List Char)
    (h1 : J.dropWhile go_isSpace = J)
    (h2 : J.reverse.dropWhile go_isSpace = J.reverse) :
    strings_TrimSpace ⟨J⟩ = ⟨J⟩ := by
  unfold strings_TrimSpace
  simp only [h1, h2, List.reverse_reverse]

theorem mem_join_list (sep : List Char) (L : List (List Char)) (x : Char)
    (hx : x ∈ join_list sep L) : x ∈ sep ∨ ∃ l ∈ L, x ∈ l := by
  induction L with
  | nil => simp [join_list] at hx
  | cons u us ih =>
    rcases us with _ | ⟨v, vs⟩
    · right; exact ⟨u, by simp, by simpa [join_list] using hx⟩
    · simp only [join_list, List.append_assoc, List.mem_append] at hx
      rcases hx with h | h | h
      · right; exact ⟨u, by simp, h⟩
      · exact Or.inl h
      · rcases ih h with h | ⟨l, hl, hxl⟩
        · exact Or.inl h
        · exact Or.inr ⟨l, List.mem_cons_of_mem u hl, hxl⟩

theorem mem_trim (s : String) (x : Char) (hx : x ∈ (strings_TrimSpace s).data) :
    x ∈ s.data := by
  unfold strings_TrimSpace at hx
  simp only [List.mem_reverse] at hx
  have h1 := (List.dropWhile_sublist go_isSpace).mem hx
  simp only [List.mem_reverse] at h1
  exact (List.dropWhile_sublist go_isSpace).mem h1

/-! ### Lemmas about the random draws -/

theorem random_range_pos (max : Int) (r : Nat) (h : 0 < max) :
    random_range max r = some ((r : Int) % max) := by
  unfold random_range
  rw [if_neg (by omega)]

/-- For a draw over a length-`n` list the code passes `n - 1`: the result
index is `r % (n - 1)`, strictly below `n - 1`. -/
theorem random_range_len (n r : Nat) (h : 2 ≤ n) :
    random_range ((n : Int) - 1) r = some ((r % (n - 1) : Nat) : Int) ∧
      r % (n - 1) < n - 1 := by
  have hpos : (0 : Int) < (n : Int) - 1 := by
    have : (2 : Int) ≤ (n : Int) := by exact_mod_cast h
    omega
  have hcast : ((n : Int) - 1) = ((n - 1 : Nat) : Int) := by omega
  constructor
  · rw [random_range_pos _ _ hpos, hcast]
    exact congrArg some (by exact_mod_cast rfl)
  · exact Nat.mod_lt _ (by omega)

theorem random_choice_eq (l : List String) (r : Nat) (h : 2 ≤ l.length) :
    random_choice l r = l.get? (r % (l.length - 1)) ∧
      r % (l.length - 1) < l.length - 1 := by
  obtain ⟨hr, hlt⟩ := random_range_len l.length r h
  refine ⟨?_, hlt⟩
  unfold random_choice
  rw [hr]
  simp only [Option.some_bind, Int.toNat_natCast]

theorem random_choice_some (l : List String) (r : Nat) (h : 2 ≤ l.length) :
    ∃ w, random_choice l r = some w ∧ w ∈ l.dropLast := by
  obtain ⟨heq, hlt⟩ := random_choice_eq l r h
  have hlen : r % (l.length - 1) < l.length := by omega
  refine ⟨l.get ⟨_, hlen⟩, ?_, ?_⟩
  · rw [heq]
    exact List.get?_eq_get hlen
  · rw [List.dropLast_eq_take]
    apply List.get?_mem (n := r % (l.length - 1))
    rw [List.get?_take hlt]
    exact List.get?_eq_get hlen

/-- A successful draw forces a list of at least two entries, and lands in
the list without its last element. -/
theorem random_choice_some_inv (l : List String) (r : Nat) (w : String)
    (h : random_choice l r = some w) : 2 ≤ l.length ∧ w ∈ l.dropLast := by
  have hlen : 2 ≤ l.length := by
    by_contra hlt
    have h0 : (l.length : Int) - 1 ≤ 0 := by omega
    unfold random_choice random_range at h
    rw [if_pos h0] at h
    simp at h
  obtain ⟨w2, hw2, hmem⟩ := random_choice_some l r hlen
  rw [hw2] at h
  exact ⟨hlen, (Option.some_inj.mp h) ▸ hmem⟩

theorem grw_some (g : Generator) (words : List String) (r : Nat)
    (h : 2 ≤ words.length) :
    ∃ w, grw g words r = some (w, g.offensive.contains w) ∧ w ∈ words.dropLast := by
  obtain ⟨w, hw, hmem⟩ := random_choice_some words r h
  exact ⟨w, by simp [grw, hw], hmem⟩

theorem grw_some_inv (g : Generator) (words : List String) (r : Nat)
    (w : String) (b : Bool) (h : grw g words r = some (w, b)) :
    2 ≤ words.length ∧ w ∈ words.dropLast := by
  unfold grw at h
  rcases hrc : random_choice words r with _ | w0
  · simp [hrc] at h
  · rw [hrc] at h
    replace h : some (w0, g.offensive.contains w0) = some (w, b) := h
    injection h with h1
    have hw : w0 = w := congrArg Prod.fst h1
    obtain ⟨h2, hmem⟩ := random_choice_some_inv words r w0 hrc
    exact ⟨h2, hw ▸ hmem⟩

theorem retry_grw_aux_mem (g : Generator) (words : List String) (s : Nat → Nat) :
    ∀ fuel k i word off w o2 i2 k2,
      retry_grw_aux g words s fuel k i word off = some (w, o2, i2, k2) →
      w = word ∨ w ∈ words.dropLast := by
  intro fuel
  induction fuel with
  | zero =>
    intro k i word off w o2 i2 k2 h
    cases off with
    | false =>
      replace h : some (word, false, i, k) = some (w, o2, i2, k2) := h
      injection h with h1
      exact Or.inl (congrArg Prod.fst h1).symm
    | true =>
      replace h : some (word, true, i, k) = some (w, o2, i2, k2) := h
      injection h with h1
      exact Or.inl (congrArg Prod.fst h1).symm
  | succ n ih =>
    intro k i word off w o2 i2 k2 h
    cases off with
    | false =>
      replace h : some (word, false, i, k) = some (w, o2, i2, k2) := h
      injection h with h1
      exact Or.inl (congrArg Prod.fst h1).symm
    | true =>
      by_cases hi : i < 10
      · rw [show retry_grw_aux g words s (n + 1) k i word true =
            (if true = true ∧ i < 10 then
              match grw g words (s k) with
              | none => none
              | some (w, o) => retry_grw_aux g words s n (k + 1) (i + 1) w o
            else some (word, true, i, k)) from rfl, if_pos ⟨rfl, hi⟩] at h
        rcases hgrw : grw g words (s k) with _ | ⟨w1, o1⟩
        · rw [hgrw] at h; simp at h
        · rw [hgrw] at h
          rcases ih (k + 1) (i + 1) w1 o1 w o2 i2 k2 h with rfl | hm
          · exact Or.inr (grw_some_inv g words (s k) w o1 hgrw).2
          · exact Or.inr hm
      · rw [show retry_grw_aux g words s (n + 1) k i word true =
            (if true = true ∧ i < 10 then
              match grw g words (s k) with
              | none => none
              | some (w, o) => retry_grw_aux g words s n (k + 1) (i + 1) w o
            else some (word, true, i, k)) from rfl, if_neg (by simp [hi])] at h
        injection h with h1
        exact Or.inl (congrArg Prod.fst h1).symm

theorem retry_grw_aux_total (g : Generator) (words : List String) (s : Nat → Nat)
    (h : 2 ≤ words.length) :
    ∀ fuel k i word off, ∃ w o2 i2 k2,
      retry_grw_aux g words s fuel k i word off = some (w, o2, i2, k2) := by
  intro fuel
  induction fuel with
  | zero =>
    intro k i word off
    cases off <;> exact ⟨word, _, i, k, rfl⟩
  | succ n ih =>
    intro k i word off
    cases off with
    | false => exact ⟨word, false, i, k, rfl⟩
    | true =>
      by_cases hi : i < 10
      · obtain ⟨w, hw, _⟩ := grw_some g words (s k) h
        obtain ⟨w2, o2, i2, k2, hrec⟩ := ih (k + 1) (i + 1) w (g.offensive.contains w)
        refine ⟨w2, o2, i2, k2, ?_⟩
        rw [show retry_grw_aux g words s (n + 1) k i word true =
            (if true = true ∧ i < 10 then
              match grw g words (s k) with
              | none => none
              | some (w, o) => retry_grw_aux g words s n (k + 1) (i + 1) w o
            else some (word, true, i, k)) from rfl, if_pos ⟨rfl, hi⟩, hw]
        exact hrec
      · refine ⟨word, true, i, k, ?_⟩
        rw [show retry_grw_aux g words s (n + 1) k i word true =
            (if true = true ∧ i < 10 then
              match grw g words (s k) with
              | none => none
              | some (w, o) => retry_grw_aux g words s n (k + 1) (i + 1) w o
            else some (word, true, i, k)) from rfl, if_neg (by simp [hi])]

theorem random_word_eq_found (g : Generator) (t : String) (o : GenerateOptions)
    (s : Nat → Nat) (k : Nat) (words : List String)
    (hl : map_lookup g.word_map t = some words) :
    random_word g t o s k = random_word_from g words o s k := by
  unfold random_word
  rw [hl]

theorem random_word_from_eq (g : Generator) (words : List String) (o : GenerateOptions)
    (s : Nat → Nat) (k : Nat) (word : String) (off : Bool)
    (hgrw : grw g words (s k) = some (word, off)) :
    random_word_from g words o s k =
      if o.Prudish = true ∧ off = true then random_word_retry g words s k word off
      else some (word, k + 1) := by
  unfold random_word_from
  rw [hgrw]

theorem random_word_from_none (g : Generator) (words : List String) (o : GenerateOptions)
    (s : Nat → Nat) (k : Nat) (hgrw : grw g words (s k) = none) :
    random_word_from g words o s k = none := by
  unfold random_word_from
  rw [hgrw]

theorem random_word_retry_eq (g : Generator) (words : List String) (s : Nat → Nat)
    (k : Nat) (word : String) (off : Bool) (w : String) (o2 : Bool) (i k2 : Nat)
    (hr : retry_grw g words s (k + 1) 0 word off = some (w, o2, i, k2)) :
    random_word_retry g words s k word off = some ((if 10 ≤ i then "" else w), k2) := by
  unfold random_word_retry
  rw [hr]

theorem random_word_total (g : Generator) (t : String) (o : GenerateOptions)
    (s : Nat → Nat) (k : Nat) (words : List String)
    (hl : map_lookup g.word_map t = some words) (h : 2 ≤ words.length) :
    ∃ w k2, random_word g t o s k = some (w, k2) := by
  obtain ⟨w, hw, hmem⟩ := grw_some g words (s k) h
  rw [random_word_eq_found g t o s k words hl, random_word_from_eq g words o s k w _ hw]
  by_cases hp : o.Prudish = true ∧ g.offensive.contains w = true
  · rw [if_pos hp]
    obtain ⟨w2, o2, i2, k2, hrec⟩ :=
      retry_grw_aux_total g words s h (10 - 0) (k + 1) 0 w (g.offensive.contains w)
    rw [random_word_retry_eq g words s k w _ w2 o2 i2 k2 hrec]
    exact ⟨_, k2, rfl⟩
  · rw [if_neg hp]
    exact ⟨w, k + 1, rfl⟩

/-- Any word returned by a successful `random_word` for a type present in
the word map is the empty placeholder or a non-final entry of that type's
list. -/
theorem random_word_mem (g : Generator) (t : String) (o : GenerateOptions)
    (s : Nat → Nat) (k : Nat) (words : List String) (w : String) (k2 : Nat)
    (hl : map_lookup g.word_map t = some words)
    (h : random_word g t o s k = some (w, k2)) :
    w = "" ∨ w ∈ words.dropLast := by
  rw [random_word_eq_found g t o s k words hl] at h
  rcases hgrw : grw g words (s k) with _ | ⟨w0, off⟩
  · rw [random_word_from_none g words o s k hgrw] at h; simp at h
  · rw [random_word_from_eq g words o s k w0 off hgrw] at h
    obtain ⟨_, hmem0⟩ := grw_some_inv g words (s k) w0 off hgrw
    by_cases hp : o.Prudish = true ∧ off = true
    · rw [if_pos hp] at h
      rcases hretry : retry_grw g words s (k + 1) 0 w0 off with _ | ⟨w1, o1, i1, k1⟩
      · rw [show random_word_retry g words s k w0 off = none by
          unfold random_word_retry; rw [hretry]] at h
        simp at h
      · rw [random_word_retry_eq g words s k w0 off w1 o1 i1 k1 hretry] at h
        injection h with h1
        have hw : (if 10 ≤ i1 then "" else w1) = w := congrArg Prod.fst h1
        by_cases hi : 10 ≤ i1
        · rw [if_pos hi] at hw; exact Or.inl hw.symm
        · rw [if_neg hi] at hw
          rcases retry_grw_aux_mem g words s (10 - 0) (k + 1) 0 w0 off w1 o1 i1 k1 hretry with
            rfl | hm
          · exact Or.inr (hw ▸ hmem0)
          · exact Or.inr (hw ▸ hm)
    · rw [if_neg hp] at h
      injection h with h1
      have hww : w0 = w := congrArg Prod.fst h1
      exact Or.inr (hww ▸ hmem0)

/-- With an empty offensive set no draw retries: the word comes straight
from the list (never `""`, never `"()"` for a type in the map) and exactly
one oracle value is consumed. -/
theorem random_word_clean (g : Generator) (t : String) (o : GenerateOptions)
    (s : Nat → Nat) (k : Nat) (words : List String) (w : String) (k2 : Nat)
    (hoff : g.offensive = [])
    (hl : map_lookup g.word_map t = some words)
    (h : random_word g t o s k = some (w, k2)) :
    w ∈ words.dropLast ∧ k2 = k + 1 := by
  rw [random_word_eq_found g t o s k words hl] at h
  rcases hgrw : grw g words (s k) with _ | ⟨w0, off⟩
  · rw [random_word_from_none g words o s k hgrw] at h; simp at h
  · rw [random_word_from_eq g words o s k w0 off hgrw] at h
    obtain ⟨_, hmem0⟩ := grw_some_inv g words (s k) w0 off hgrw
    have hoff0 : off = false := by
      unfold grw at hgrw
      rcases hrc : random_choice words (s k) with _ | w1
      · simp [hrc] at hgrw
      · rw [hrc] at hgrw
        replace hgrw : some (w1, g.offensive.contains w1) = some (w0, off) := hgrw
        injection hgrw with h1
        have h2 := congrArg Prod.snd h1
        simp only at h2
        rw [← h2, hoff]
        rfl
    rw [hoff0] at h
    rw [if_neg (by simp)] at h
    injection h with h1
    have hww : w0 = w := congrArg Prod.fst h1
    have hkk : k + 1 = k2 := congrArg (fun p => p.2) h1
    exact ⟨hww ▸ hmem0, hkk.symm⟩

/-! ### Structural facts about the grammar tables -/

theorem grammar_rules_sound :
    ∀ t ∈ word_types, grammar_rules t ≠ [] ∧ ∀ u ∈ grammar_rules t, u ∈ word_types := by
  decide

theorem word_types_getD_mem : ∀ i < 11, word_types.getD i "" ∈ word_types := by
  decide

theorem word_types_length : word_types.length = 11 := rfl

theorem enum_fst_lt : ∀ p ∈ word_types.enum, p.1 < 11 := by decide

theorem update_prev_loop_lt (t : String) :
    ∀ (l : List (Nat × String)) (prev : Nat),
      (∀ p ∈ l, p.1 < 11) → prev < 11 → update_prev_loop t l prev < 11 := by
  intro l
  induction l with
  | nil => intro prev _ h; exact h
  | cons p rest ih =>
    intro prev hl hprev
    simp only [update_prev_loop]
    apply ih
    · intro q hq; exact hl q (List.mem_cons_of_mem p hq)
    · by_cases hp : p.2 = t
      · rw [if_pos hp]; exact hl p (List.mem_cons_self p rest)
      · rw [if_neg hp]; exact hprev

theorem update_prev_index_lt (t : String) (prev : Nat) (h : prev < 11) :
    update_prev_index t prev < 11 :=
  update_prev_loop_lt t word_types.enum prev enum_fst_lt h

/-! ### The successor-type selection -/

theorem next_word_type_multi (prev r : Nat)
    (h : 1 < (grammar_rules (word_types.getD prev "")).length) :
    next_word_type prev r =
      ((grammar_rules (word_types.getD prev "")).get?
        (r % ((grammar_rules (word_types.getD prev "")).length - 1))).map
        (fun t => (t, 1)) ∧
      r % ((grammar_rules (word_types.getD prev "")).length - 1) <
        (grammar_rules (word_types.getD prev "")).length - 1 := by
  obtain ⟨hr, hlt⟩ :=
    random_range_len (grammar_rules (word_types.getD prev "")).length r (by omega)
  refine ⟨?_, hlt⟩
  unfold next_word_type
  rw [if_pos (by
    have : (2 : Int) ≤ ((grammar_rules (word_types.getD prev "")).length : Int) := by
      exact_mod_cast h
    omega)]
  rw [hr]
  simp only [Int.toNat_natCast]

theorem next_word_type_single (prev r : Nat)
    (h : (grammar_rules (word_types.getD prev "")).length = 1) :
    next_word_type prev r =
      some ((grammar_rules (word_types.getD prev "")).getD 0 "", 0) := by
  unfold next_word_type
  rw [if_neg (by
    have : ((grammar_rules (word_types.getD prev "")).length : Int) = 1 := by
      exact_mod_cast h
    omega)]
  rcases hr : grammar_rules (word_types.getD prev "") with _ | ⟨u, us⟩
  · rw [hr] at h; simp at h
  · simp [List.get?]

theorem next_word_type_total (prev r : Nat) (h : prev < 11) :
    ∃ t d, next_word_type prev r = some (t, d) ∧ t ∈ word_types := by
  obtain ⟨hne, hsub⟩ := grammar_rules_sound _ (word_types_getD_mem prev h)
  rcases hlen : (grammar_rules (word_types.getD prev "")).length with _ | _ | n
  · exact absurd (List.length_eq_zero.mp hlen) hne
  · obtain heq := next_word_type_single prev r hlen
    rcases hr : grammar_rules (word_types.getD prev "") with _ | ⟨u, us⟩
    · exact absurd hr hne
    · refine ⟨u, 0, ?_, hsub u (by rw [hr]; exact List.mem_cons_self u us)⟩
      rw [heq, hr]
      rfl
  · obtain ⟨heq, hlt⟩ := next_word_type_multi prev r (by omega)
    have hidx : r % ((grammar_rules (word_types.getD prev "")).length - 1) <
        (grammar_rules (word_types.getD prev "")).length := by omega
    obtain hg := List.get?_eq_get hidx
    refine ⟨(grammar_rules (word_types.getD prev "")).get ⟨_, hidx⟩, 1, ?_, ?_⟩
    · rw [heq, hg]; rfl
    · exact hsub _ (List.get_mem _ _ _)

/-- A successful successor selection from a valid previous index lands in
`word_types`. -/
theorem next_word_type_mem (prev r : Nat) (t : String) (d : Nat) (h : prev < 11)
    (heq : next_word_type prev r = some (t, d)) : t ∈ word_types := by
  obtain ⟨t2, d2, heq2, hmem⟩ := next_word_type_total prev r h
  rw [heq] at heq2
  injection heq2 with h1
  have htt : t = t2 := congrArg Prod.fst h1
  exact htt ▸ hmem

/-! ### Equation lemmas for the generation pipeline -/

theorem fragment_loop_zero (g : Generator) (o : GenerateOptions) (prev : Nat)
    (s : Nat → Nat) (k : Nat) : fragment_loop g o 0 prev s k = some ([], k) := rfl

theorem fragment_loop_succ (g : Generator) (o : GenerateOptions) (n prev : Nat)
    (s : Nat → Nat) (k : Nat) :
    fragment_loop g o (n + 1) prev s k =
      (next_word_type prev (s k)).bind fun td =>
        (random_word g td.1 o s (k + td.2)).bind fun wk =>
          (fragment_loop g o n (update_prev_index td.1 prev) s wk.2).map
            fun p => (wk.1 :: p.1, p.2) := rfl

theorem passphrase_iter_zero (g : Generator) (o : GenerateOptions)
    (s : Nat → Nat) (k : Nat) : passphrase_iter g o 0 s k = some ([], k) := rfl

theorem passphrase_iter_succ (g : Generator) (o : GenerateOptions) (m : Nat)
    (s : Nat → Nat) (k : Nat) :
    passphrase_iter g o (m + 1) s k =
      (random_word g "conjunction" o s k).bind fun ck =>
        (generate_fragment g o s ck.2).bind fun fk =>
          (passphrase_iter g o m s fk.2).map fun p => (ck.1 :: (fk.1 ++ p.1), p.2) := rfl

theorem generate_fragment_eq (g : Generator) (o : GenerateOptions)
    (s : Nat → Nat) (k : Nat) (h : o.Magic_fragment_length ≠ 0) :
    generate_fragment g o s k =
      (fragment_start_index (s k)).bind fun idx =>
        (random_word g (word_types.getD idx.toNat "") o s (k + 1)).bind fun wk =>
          (fragment_loop g o (o.Magic_fragment_length - 1) idx.toNat s wk.2).map
            fun p => (wk.1 :: p.1, p.2) := by
  unfold generate_fragment
  rw [if_neg h]

theorem generate_passphrase_eq (g : Generator) (o : GenerateOptions)
    (s : Nat → Nat) (k : Nat) :
    generate_passphrase g o s k =
      (generate_fragment g o s k).bind fun fk =>
        (passphrase_iter g o (o.Length / o.Magic_fragment_length) s fk.2).map
          fun p => ("" :: (fk.1 ++ p.1), p.2) := rfl

theorem passphrases_loop_zero (g : Generator) (o : GenerateOptions) (sep : String)
    (s : Nat → Nat) (k : Nat) : passphrases_loop g o sep 0 s k = some ([], k) := rfl

theorem passphrases_loop_succ (g : Generator) (o : GenerateOptions) (sep : String)
    (m : Nat) (s : Nat → Nat) (k : Nat) :
    passphrases_loop g o sep (m + 1) s k =
      (generate_passphrase g o s k).bind fun pk =>
        if o.Length + 1 ≤ (strings_Split1 ' ' (strings_Join pk.1 " ")).length then
          (if o.Add_digit then
            (random_digit (s pk.2)).map fun d =>
              (strings_TrimSpace (strings_Join
                ((strings_Split1 ' ' (strings_Join pk.1 " ")).take (o.Length + 1)) sep) ++ d,
                pk.2 + 1)
           else some (strings_TrimSpace (strings_Join
              ((strings_Split1 ' ' (strings_Join pk.1 " ")).take (o.Length + 1)) sep),
              pk.2)).bind fun p1 =>
            (if o.Add_symbol then
              (random_choice o.Symbols (s p1.2)).map fun c => (p1.1 ++ c, p1.2 + 1)
             else some p1).bind fun p2 =>
              (passphrases_loop g o sep m s p2.2).map fun p => (p2.1 :: p.1, p.2)
        else none := rfl

theorem GeneratePassphrases_ok_eq (g : Generator) (o0 : GenerateOptions)
    (s : Nat → Nat) (o : GenerateOptions) (hok : check_options g (some o0) = .ok o) :
    GeneratePassphrases g (some o0) s =
      (passphrases_loop g o (if o.No_spaces then "" else " ") o.Count s 0).map
        fun p => .ok p.1 := by
  unfold GeneratePassphrases
  rw [hok]

/-- A nil options pointer that passes validation is still dereferenced by
the caller: panic. -/
theorem GeneratePassphrases_nil_eq (g : Generator) (s : Nat → Nat)
    (o : GenerateOptions) (hok : check_options g none = .ok o) :
    GeneratePassphrases g none s = none := by
  unfold GeneratePassphrases
  rw [hok]

theorem GeneratePassphrases_error_eq (g : Generator) (options : Option GenerateOptions)
    (s : Nat → Nat) (e : String) (herr : check_options g options = .error e) :
    GeneratePassphrases g options s = some (.error e) := by
  unfold GeneratePassphrases
  rw [herr]

/-! ### `check_options` facts -/

theorem check_options_none (g : Generator) (h : g.word_map.length ≠ 0) :
    check_options g none = .ok ⟨4, 5, 4, false, false, false, false, default_symbols⟩ := by
  unfold check_options check_count
  rw [if_neg h]
  rfl

theorem check_symbols_inv (o o' : GenerateOptions) (h : check_symbols o = .ok o') :
    o' = { o with Symbols := if o.Symbols.length = 0 then default_symbols else o.Symbols } := by
  unfold check_symbols at h
  injection h with h1
  rw [← h1]
  by_cases h0 : o.Symbols.length = 0 <;> simp [h0]

theorem check_fragment_inv (o o' : GenerateOptions) (h : check_fragment o = .ok o') :
    o.Magic_fragment_length ≤ 99 ∧
      o' = { o with
             Magic_fragment_length :=
               if o.Magic_fragment_length = 0 then fragment_default
               else o.Magic_fragment_length,
             Symbols := if o.Symbols.length = 0 then default_symbols else o.Symbols } := by
  unfold check_fragment at h
  by_cases hf : fragment_max < o.Magic_fragment_length
  · rw [if_pos hf] at h; exact absurd h (by simp)
  · rw [if_neg hf] at h
    refine ⟨by unfold fragment_max at hf; omega, ?_⟩
    have h2 := check_symbols_inv _ _ h
    by_cases h0 : o.Magic_fragment_length = 0 <;> simp only [h0, if_true, if_false] at h2 <;>
      rw [h2] <;> simp [h0]

theorem check_length_inv (o o' : GenerateOptions) (h : check_length o = .ok o') :
    o.Length ≤ 99 ∧ o.Magic_fragment_length ≤ 99 ∧
      o' = { o with
             Length := if o.Length = 0 then length_default else o.Length,
             Magic_fragment_length :=
               if o.Magic_fragment_length = 0 then fragment_default
               else o.Magic_fragment_length,
             Symbols := if o.Symbols.length = 0 then default_symbols else o.Symbols } := by
  unfold check_length at h
  by_cases hl : length_max < o.Length
  · rw [if_pos hl] at h; exact absurd h (by simp)
  · rw [if_neg hl] at h
    refine ⟨by unfold length_max at hl; omega, ?_⟩
    obtain ⟨hf, h2⟩ := check_fragment_inv _ _ h
    by_cases h0 : o.Length = 0 <;> simp only [h0, if_true, if_false] at h2 hf <;>
      exact ⟨hf, by rw [h2]; simp [h0]⟩

theorem check_count_inv (g : Generator) (o o' : GenerateOptions)
    (h : check_count g o = .ok o') :
    g.word_map.length ≠ 0 ∧ o.Count ≤ 99 ∧ o.Length ≤ 99 ∧
      o.Magic_fragment_length ≤ 99 ∧
      o' = { o with
             Count := if o.Count = 0 then count_default else o.Count,
             Length := if o.Length = 0 then length_default else o.Length,
             Magic_fragment_length :=
               if o.Magic_fragment_length = 0 then fragment_default
               else o.Magic_fragment_length,
             Symbols := if o.Symbols.length = 0 then default_symbols else o.Symbols } := by
  unfold check_count at h
  by_cases hw : g.word_map.length = 0
  · rw [if_pos hw] at h; exact absurd h (by simp)
  · rw [if_neg hw] at h
    by_cases hc : count_max < o.Count
    · rw [if_pos hc] at h; exact absurd h (by simp)
    · rw [if_neg hc] at h
      refine ⟨hw, by unfold count_max at hc; omega, ?_⟩
      obtain ⟨hl, hf, h2⟩ := check_length_inv _ _ h
      by_cases h0 : o.Count = 0 <;> simp only [h0, if_true, if_false] at h2 hl hf <;>
        exact ⟨hl, hf, by rw [h2]; simp [h0]⟩

/-- Characterization of a successful `check_options`: the input bounds hold
and the returned options are the input with zero fields defaulted. -/
theorem check_options_ok_inv (g : Generator) (options : Option GenerateOptions)
    (o : GenerateOptions) (h : check_options g options = .ok o) :
    g.word_map.length ≠ 0 ∧
      (options.getD default_GenerateOptions).Count ≤ 99 ∧
      (options.getD default_GenerateOptions).Length ≤ 99 ∧
      (options.getD default_GenerateOptions).Magic_fragment_length ≤ 99 ∧
      o = { options.getD default_GenerateOptions with
            Count := if (options.getD default_GenerateOptions).Count = 0 then count_default
              else (options.getD default_GenerateOptions).Count,
            Length := if (options.getD default_GenerateOptions).Length = 0 then length_default
              else (options.getD default_GenerateOptions).Length,
            Magic_fragment_length :=
              if (options.getD default_GenerateOptions).Magic_fragment_length = 0 then
                fragment_default
              else (options.getD default_GenerateOptions).Magic_fragment_length,
            Symbols := if (options.getD default_GenerateOptions).Symbols.length = 0 then
                default_symbols
              else (options.getD default_GenerateOptions).Symbols } := by
  exact check_count_inv g _ o h

/-- The validated options always carry positive counts and lengths and a
nonempty symbol set. -/
theorem check_options_ok_pos (g : Generator) (options : Option GenerateOptions)
    (o : GenerateOptions) (h : check_options g options = .ok o) :
    1 ≤ o.Count ∧ o.Count ≤ 99 ∧ 1 ≤ o.Length ∧ o.Length ≤ 99 ∧
      1 ≤ o.Magic_fragment_length ∧ o.Magic_fragment_length ≤ 99 ∧
      o.Symbols ≠ [] := by
  obtain ⟨hw, hc, hl, hf, ho⟩ := check_options_ok_inv g options o h
  subst ho
  set o0 := options.getD default_GenerateOptions
  refine ⟨?_, ?_, ?_, ?_, ?_, ?_, ?_⟩
  · by_cases h0 : o0.Count = 0 <;> simp [h0, count_default] <;> omega
  · by_cases h0 : o0.Count = 0 <;> simp [h0, count_default] <;> omega
  · by_cases h0 : o0.Length = 0 <;> simp [h0, length_default] <;> omega
  · by_cases h0 : o0.Length = 0 <;> simp [h0, length_default] <;> omega
  · by_cases h0 : o0.Magic_fragment_length = 0 <;> simp [h0, fragment_default] <;> omega
  · by_cases h0 : o0.Magic_fragment_length = 0 <;> simp [h0, fragment_default] <;> omega
  · by_cases h0 : o0.Symbols.length = 0 <;> simp [h0, default_symbols]
    exact fun he => h0 (List.length_eq_zero.mpr he)

theorem check_options_reject_count (g : Generator) (o : GenerateOptions)
    (h : count_max < o.Count) : ∃ e, check_options g (some o) = .error e := by
  unfold check_options check_count
  simp only [Option.getD_some]
  by_cases hw : g.word_map.length = 0
  · exact ⟨_, by rw [if_pos hw]⟩
  · exact ⟨_, by rw [if_neg hw, if_pos h]⟩

theorem check_options_reject_length (g : Generator) (o : GenerateOptions)
    (h : length_max < o.Length) : ∃ e, check_options g (some o) = .error e := by
  unfold check_options check_count
  simp only [Option.getD_some]
  by_cases hw : g.word_map.length = 0
  · exact ⟨_, by rw [if_pos hw]⟩
  · by_cases hc : count_max < o.Count
    · exact ⟨_, by rw [if_neg hw, if_pos hc]⟩
    · refine ⟨"Length exceeds max: 99", ?_⟩
      rw [if_neg hw, if_neg hc]
      unfold check_length
      rw [if_pos (by by_cases h0 : o.Count = 0 <;> simp [h0] <;> exact h)]

theorem check_options_reject_fragment (g : Generator) (o : GenerateOptions)
    (h : fragment_max < o.Magic_fragment_length) :
    ∃ e, check_options g (some o) = .error e := by
  unfold check_options check_count
  simp only [Option.getD_some]
  by_cases hw : g.word_map.length = 0
  · exact ⟨_, by rw [if_pos hw]⟩
  · by_cases hc : count_max < o.Count
    · exact ⟨_, by rw [if_neg hw, if_pos hc]⟩
    · by_cases hl : length_max <
        (if o.Count = 0 then { o with Count := count_default } else o).Length
      · exact ⟨_, by rw [if_neg hw, if_neg hc]; unfold check_length; rw [if_pos hl]⟩
      · refine ⟨"Fragment length exceeds max: 99", ?_⟩
        rw [if_neg hw, if_neg hc]
        unfold check_length
        rw [if_neg hl]
        unfold check_fragment
        rw [if_pos (by
          by_cases h0 : o.Count = 0 <;>
            by_cases h1 : o.Length = 0 <;> simp [h0, h1] <;> exact h)]

/-! ### Totality of the generation pipeline over well-stocked word maps -/

/-- Every grammatical category is present in the word map with at least
two words (two, because the code's draws only ever reach the first
`len - 1` entries and `crypto/rand.Int` panics on an empty range). -/
def generator_ok (g : Generator) : Prop :=
  ∀ t ∈ word_types, ∃ words, map_lookup g.word_map t = some words ∧ 2 ≤ words.length

theorem conjunction_mem : "conjunction" ∈ word_types := by decide

theorem fragment_start_spec (r : Nat) :
    fragment_start_index r = some ((r % 10 : Nat) : Int) ∧ r % 10 < 10 := by
  obtain ⟨h1, h2⟩ := random_range_len word_types.length r (by rw [word_types_length]; omega)
  rw [word_types_length] at h1 h2
  norm_num at h1 h2
  exact ⟨h1, h2⟩

theorem fragment_loop_total (g : Generator) (o : GenerateOptions) (s : Nat → Nat)
    (hg : generator_ok g) :
    ∀ n prev k, prev < 11 →
      ∃ ws k2, fragment_loop g o n prev s k = some (ws, k2) ∧ ws.length = n := by
  intro n
  induction n with
  | zero => intro prev k _; exact ⟨[], k, rfl, rfl⟩
  | succ m ih =>
    intro prev k hprev
    obtain ⟨t, d, hnext, htmem⟩ := next_word_type_total prev (s k) hprev
    obtain ⟨words, hlk, hlen⟩ := hg t htmem
    obtain ⟨w, k2, hrw⟩ := random_word_total g t o s (k + d) words hlk hlen
    obtain ⟨ws, k3, hrec, hl⟩ :=
      ih (update_prev_index t prev) k2 (update_prev_index_lt t prev hprev)
    refine ⟨w :: ws, k3, ?_, by simp [hl]⟩
    rw [fragment_loop_succ, hnext]
    simp only [Option.some_bind]
    rw [hrw]
    simp only [Option.some_bind]
    rw [hrec]
    rfl

theorem generate_fragment_total (g : Generator) (o : GenerateOptions) (s : Nat → Nat)
    (hg : generator_ok g) (hf : o.Magic_fragment_length ≠ 0) (k : Nat) :
    ∃ ws k2, generate_fragment g o s k = some (ws, k2) ∧
      ws.length = o.Magic_fragment_length := by
  obtain ⟨hs, hlt⟩ := fragment_start_spec (s k)
  have hmem : word_types.getD ((s k % 10 : Nat) : Int).toNat "" ∈ word_types := by
    rw [Int.toNat_natCast]
    exact word_types_getD_mem _ (by omega)
  obtain ⟨words, hlk, hlen⟩ := hg _ hmem
  obtain ⟨w, k2, hrw⟩ := random_word_total g _ o s (k + 1) words hlk hlen
  obtain ⟨ws, k3, hrec, hl⟩ :=
    fragment_loop_total g o s hg (o.Magic_fragment_length - 1)
      ((s k % 10 : Nat) : Int).toNat k2 (by rw [Int.toNat_natCast]; omega)
  refine ⟨w :: ws, k3, ?_, ?_⟩
  · rw [generate_fragment_eq g o s k hf, hs]
    simp only [Option.some_bind]
    rw [hrw]
    simp only [Option.some_bind]
    rw [hrec]
    rfl
  · simp only [List.length_cons, hl]
    omega

theorem passphrase_iter_total (g : Generator) (o : GenerateOptions) (s : Nat → Nat)
    (hg : generator_ok g) (hf : o.Magic_fragment_length ≠ 0) :
    ∀ n k, ∃ ws k2, passphrase_iter g o n s k = some (ws, k2) ∧
      ws.length = n * (1 + o.Magic_fragment_length) := by
  intro n
  induction n with
  | zero => intro k; exact ⟨[], k, rfl, by simp⟩
  | succ m ih =>
    intro k
    obtain ⟨cw, hclk, hclen⟩ := hg "conjunction" conjunction_mem
    obtain ⟨c, k1, hc⟩ := random_word_total g "conjunction" o s k cw hclk hclen
    obtain ⟨f, k2, hfr, hfl⟩ := generate_fragment_total g o s hg hf k1
    obtain ⟨ws, k3, hrec, hl⟩ := ih k2
    refine ⟨c :: (f ++ ws), k3, ?_, ?_⟩
    · rw [passphrase_iter_succ, hc]
      simp only [Option.some_bind]
      rw [hfr]
      simp only [Option.some_bind]
      rw [hrec]
      rfl
    · simp only [List.length_cons, List.length_append, hfl, hl]
      ring

theorem generate_passphrase_total (g : Generator) (o : GenerateOptions) (s : Nat → Nat)
    (hg : generator_ok g) (hf : o.Magic_fragment_length ≠ 0) (k : Nat) :
    ∃ rest k2, generate_passphrase g o s k = some ("" :: rest, k2) ∧
      rest.length = o.Magic_fragment_length +
        (o.Length / o.Magic_fragment_length) * (1 + o.Magic_fragment_length) := by
  obtain ⟨f, k1, hfr, hfl⟩ := generate_fragment_total g o s hg hf k
  obtain ⟨ws, k2, hit, hl⟩ :=
    passphrase_iter_total g o s hg hf (o.Length / o.Magic_fragment_length) k1
  refine ⟨f ++ ws, k2, ?_, by simp [hfl, hl]⟩
  rw [generate_passphrase_eq, hfr]
  simp only [Option.some_bind]
  rw [hit]
  rfl

/-- The phrase slice always carries at least `Length + 2` entries, so the
Go slice expression `ps[:Length+1]` never panics. -/
theorem phrase_token_bound (L F : Nat) (hF : F ≠ 0) :
    L + 2 ≤ 1 + (F + (L / F) * (1 + F)) := by
  have key : ∀ q m, F * q + m = L → m < F → L + 2 ≤ 1 + (F + q * (1 + F)) := by
    intro q m h1 h2
    have e1 : q * (1 + F) = q + F * q := by ring
    rw [e1]
    omega
  exact key (L / F) (L % F) (Nat.div_add_mod L F) (Nat.mod_lt L (Nat.pos_of_ne_zero hF))

theorem passphrases_loop_total (g : Generator) (o : GenerateOptions) (sep : String)
    (s : Nat → Nat) (hg : generator_ok g) (hf : o.Magic_fragment_length ≠ 0)
    (hsym : o.Add_symbol = true → 2 ≤ o.Symbols.length) :
    ∀ n k, ∃ l k2, passphrases_loop g o sep n s k = some (l, k2) ∧ l.length = n := by
  intro n
  induction n with
  | zero => intro k; exact ⟨[], k, rfl, rfl⟩
  | succ m ih =>
    intro k
    obtain ⟨rest, k1, hpp, hrl⟩ := generate_passphrase_total g o s hg hf k
    have htok : o.Length + 1 ≤
        (strings_Split1 ' ' (strings_Join ("" :: rest) " ")).length := by
      have hge := split_join_length_ge ("" :: rest) (by simp)
      have hb := phrase_token_bound o.Length o.Magic_fragment_length hf
      simp only [List.length_cons, hrl] at hge
      omega
    obtain ⟨p1, hp1⟩ : ∃ p1 : String × Nat,
        (if o.Add_digit then
          (random_digit (s k1)).map fun d =>
            (strings_TrimSpace (strings_Join
              ((strings_Split1 ' ' (strings_Join ("" :: rest) " ")).take (o.Length + 1)) sep)
              ++ d, k1 + 1)
         else some (strings_TrimSpace (strings_Join
            ((strings_Split1 ' ' (strings_Join ("" :: rest) " ")).take (o.Length + 1)) sep),
            k1)) = some p1 := by
      cases hAd : o.Add_digit
      · exact ⟨_, by rw [if_neg (by simp)]⟩
      · obtain ⟨d, hd2, _⟩ :=
          random_choice_some ["0", "1", "2", "3", "4", "5", "6", "7", "8", "9"] (s k1)
            (by decide)
        refine ⟨(strings_TrimSpace (strings_Join
            ((strings_Split1 ' ' (strings_Join ("" :: rest) " ")).take (o.Length + 1)) sep)
            ++ d, k1 + 1), ?_⟩
        rw [if_pos rfl, show random_digit (s k1) = some d from hd2, Option.map_some']
    obtain ⟨p2, hp2⟩ : ∃ p2 : String × Nat,
        (if o.Add_symbol then
          (random_choice o.Symbols (s p1.2)).map fun c => (p1.1 ++ c, p1.2 + 1)
         else some p1) = some p2 := by
      cases hAs : o.Add_symbol
      · exact ⟨p1, by rw [if_neg (by simp)]⟩
      · obtain ⟨c, hc2, _⟩ := random_choice_some o.Symbols (s p1.2) (hsym hAs)
        exact ⟨(p1.1 ++ c, p1.2 + 1), by rw [if_pos rfl, hc2, Option.map_some']⟩
    obtain ⟨l0, k3, hrec, hll⟩ := ih p2.2
    refine ⟨p2.1 :: l0, k3, ?_, by simp [hll]⟩
    rw [passphrases_loop_succ, hpp]
    simp only [Option.some_bind]
    rw [if_pos htok, hp1]
    simp only [Option.some_bind]
    rw [hp2]
    simp only [Option.some_bind]
    rw [hrec]
    rfl

/-- The count of returned passphrases equals the loop bound whenever the
loop completes (no hypotheses about the word map). -/
theorem passphrases_loop_length (g : Generator) (o : GenerateOptions) (sep : String)
    (s : Nat → Nat) :
    ∀ n k l k2, passphrases_loop g o sep n s k = some (l, k2) → l.length = n := by
  intro n
  induction n with
  | zero =>
    intro k l k2 h
    replace h : some (([] : List String), k) = some (l, k2) := h
    injection h with h1
    have hl2 : ([] : List String) = l := congrArg Prod.fst h1
    rw [← hl2]
    rfl
  | succ m ih =>
    intro k l k2 h
    rw [passphrases_loop_succ, Option.bind_eq_some] at h
    obtain ⟨pk, _, h⟩ := h
    by_cases hc : o.Length + 1 ≤ (strings_Split1 ' ' (strings_Join pk.1 " ")).length
    · rw [if_pos hc, Option.bind_eq_some] at h
      obtain ⟨p1, _, h⟩ := h
      rw [Option.bind_eq_some] at h
      obtain ⟨p2, _, h⟩ := h
      rw [Option.map_eq_some'] at h
      obtain ⟨p, hp, hpe⟩ := h
      have hl : p2.1 :: p.1 = l := congrArg Prod.fst hpe
      rw [← hl]
      simp [ih p2.2 p.1 p.2 (by rw [hp])]
    · rw [if_neg hc] at h
      simp at h

/-! ### Cleanliness: word maps whose words survive the join-split-trim
pipeline unchanged -/

/-- A word that is nonempty and free of white space. -/
def clean_word (w : String) : Prop :=
  w.data ≠ [] ∧ ∀ c ∈ w.data, go_isSpace c = false

/-- Every category is mapped and holds only clean words, and the
offensive set is empty (so no retry ever rewrites a drawn word). -/
def generator_clean (g : Generator) : Prop :=
  (∀ t ∈ word_types, ∃ words, map_lookup g.word_map t = some words ∧
    ∀ w ∈ words, clean_word w) ∧ g.offensive = []

theorem mem_of_dropLast {w : String} {l : List String} (h : w ∈ l.dropLast) : w ∈ l := by
  rw [List.dropLast_eq_take] at h
  exact List.mem_of_mem_take h

theorem clean_no_space {w : String} (h : clean_word w) : ' ' ∉ w.data := by
  intro hc
  have := h.2 ' ' hc
  simp [go_isSpace] at this

theorem split_char_length_append (c : Char) (a b : List Char) (h : ∀ x ∈ b, x ≠ c) :
    (split_char c (a ++ b)).length = (split_char c a).length := by
  induction a with
  | nil =>
    rw [List.nil_append, split_char_no_sep c b h]
    rfl
  | cons x xs ih =>
    by_cases hx : x = c
    · simp only [List.cons_append, split_char, if_pos hx, List.length_cons, List.append_eq]
      omega
    · rcases h1 : split_char c (xs ++ b) with _ | ⟨t1, ts1⟩
      · exact absurd h1 (split_char_ne_nil c (xs ++ b))
      · rcases h2 : split_char c xs with _ | ⟨t2, ts2⟩
        · exact absurd h2 (split_char_ne_nil c xs)
        · simp only [List.cons_append, split_char, if_neg hx, List.append_eq, h1, h2,
            List.length_cons]
          have := ih
          rw [h1, h2] at this
          simp only [List.length_cons] at this
          omega

/-- Splitting after appending a separator-free suffix keeps the token
count. -/
theorem split_length_append (p q : String) (h : ∀ x ∈ q.data, x ≠ ' ') :
    (strings_Split1 ' ' (p ++ q)).length = (strings_Split1 ' ' p).length := by
  unfold strings_Split1
  rw [show (p ++ q).data = p.data ++ q.data from rfl]
  simp only [List.length_map]
  exact split_char_length_append ' ' p.data q.data h

theorem join_list_decomp (u : List Char) (us : List (List Char)) :
    ∃ R, join_list [' '] (u :: us) = u ++ R := by
  cases us with
  | nil => exact ⟨[], by simp [join_list]⟩
  | cons v vs =>
    refine ⟨[' '] ++ join_list [' '] (v :: vs), ?_⟩
    show (u ++ [' ']) ++ join_list [' '] (v :: vs) = u ++ ([' '] ++ join_list [' '] (v :: vs))
    rw [List.append_assoc]

theorem join_list_nil_cons (d : List Char) (ds : List (List Char)) :
    join_list [' '] ([] :: d :: ds) = ' ' :: join_list [' '] (d :: ds) := rfl

/-- The space-join of clean words needs no leading trim. -/
theorem join_clean_nodrop_front (ts : List String) (hne : ts ≠ [])
    (hcl : ∀ w ∈ ts, clean_word w) :
    (join_list [' '] (ts.map String.data)).dropWhile go_isSpace =
      join_list [' '] (ts.map String.data) := by
  rcases ts with _ | ⟨u, us⟩
  · exact absurd rfl hne
  · simp only [List.map_cons]
    obtain ⟨R, hR⟩ := join_list_decomp u.data (us.map String.data)
    have hu := hcl u (List.mem_cons_self u us)
    rcases hd : u.data with _ | ⟨a, l⟩
    · exact absurd hd hu.1
    · have ha : go_isSpace a = false := hu.2 a (by rw [hd]; exact List.mem_cons_self a l)
      rw [hd] at hR
      rw [hR, List.cons_append, List.dropWhile_cons, ha]
      simp

/-- Nor any trailing trim. -/
theorem join_clean_nodrop_back : ∀ (us : List String) (u : String), clean_word u →
    (∀ w ∈ us, clean_word w) →
    ((join_list [' '] ((u :: us).map String.data)).reverse).dropWhile go_isSpace =
      (join_list [' '] ((u :: us).map String.data)).reverse := by
  intro us
  induction us with
  | nil =>
    intro u hu _
    simp only [List.map_cons, List.map_nil]
    have hj : join_list [' '] [u.data] = u.data := rfl
    rw [hj]
    rcases hd : u.data.reverse with _ | ⟨a, l⟩
    · rfl
    · have ha : go_isSpace a = false := by
        apply hu.2
        rw [← List.mem_reverse, hd]
        exact List.mem_cons_self a l
      rw [List.dropWhile_cons, ha]
      simp
  | cons v vs ih =>
    intro u hu hall
    have hv := hall v (List.mem_cons_self v vs)
    have hvs : ∀ w ∈ vs, clean_word w := fun w hw => hall w (List.mem_cons_of_mem v hw)
    have hK := ih v hv hvs
    have hKne : join_list [' '] ((v :: vs).map String.data) ≠ [] := by
      obtain ⟨R, hR⟩ := join_list_decomp v.data (vs.map String.data)
      show join_list [' '] (v.data :: vs.map String.data) ≠ []
      rw [hR]
      intro h0
      exact hv.1 (List.append_eq_nil.mp h0).1
    have hrevne : (join_list [' '] ((v :: vs).map String.data)).reverse ≠ [] := by
      simpa using hKne
    have hj : join_list [' '] ((u :: v :: vs).map String.data) =
        u.data ++ ' ' :: join_list [' '] ((v :: vs).map String.data) := by
      show (u.data ++ [' ']) ++ join_list [' '] ((v :: vs).map String.data) = _
      rw [List.append_assoc]
      rfl
    rw [hj, List.reverse_append, List.reverse_cons, List.append_assoc]
    exact dropWhile_eq_self_append go_isSpace _ _ hK hrevne

/-- Trimming the space-join of a leading empty token and clean words
yields exactly the space-join of the words. -/
theorem trim_join_empty_cons (ts : List String) (hne : ts ≠ [])
    (hcl : ∀ w ∈ ts, clean_word w) :
    strings_TrimSpace (strings_Join ("" :: ts) " ") = strings_Join ts " " := by
  rcases ts with _ | ⟨u, us⟩
  · exact absurd rfl hne
  · have hj : (strings_Join ("" :: u :: us) " ").data =
        ' ' :: join_list [' '] ((u :: us).map String.data) := by
      rw [strings_Join_data]
      exact join_list_nil_cons u.data (us.map String.data)
    have hstep : strings_TrimSpace (strings_Join ("" :: u :: us) " ") =
        strings_TrimSpace ⟨join_list [' '] ((u :: us).map String.data)⟩ := by
      rw [show strings_Join ("" :: u :: us) " " =
          ⟨' ' :: join_list [' '] ((u :: us).map String.data)⟩ from congrArg String.mk hj]
      exact strings_TrimSpace_cons_space _
    rw [hstep]
    have h1 := join_clean_nodrop_front (u :: us) (by simp) hcl
    have h2 := join_clean_nodrop_back us u (hcl u (List.mem_cons_self u us))
      (fun w hw => hcl w (List.mem_cons_of_mem u hw))
    exact trim_of_drops _ h1 h2

/-! ### Conditional provenance: every word of a generated phrase is clean -/

theorem fragment_loop_clean (g : Generator) (o : GenerateOptions) (s : Nat → Nat)
    (hc : generator_clean g) :
    ∀ n prev k ws k2, prev < 11 → fragment_loop g o n prev s k = some (ws, k2) →
      ∀ w ∈ ws, clean_word w := by
  intro n
  induction n with
  | zero =>
    intro prev k ws k2 _ h w hw
    replace h : some (([] : List String), k) = some (ws, k2) := h
    injection h with h1
    have h2 : ([] : List String) = ws := congrArg Prod.fst h1
    rw [← h2] at hw
    simp at hw
  | succ m ih =>
    intro prev k ws k2 hprev h w hw
    rw [fragment_loop_succ, Option.bind_eq_some] at h
    obtain ⟨td, htd, h⟩ := h
    rw [Option.bind_eq_some] at h
    obtain ⟨wk, hwk, h⟩ := h
    rw [Option.map_eq_some'] at h
    obtain ⟨p, hp, hpe⟩ := h
    have hws : wk.1 :: p.1 = ws := congrArg Prod.fst hpe
    rw [← hws] at hw
    have htmem : td.1 ∈ word_types :=
      next_word_type_mem prev (s k) td.1 td.2 hprev (by rw [htd])
    obtain ⟨words, hlk, hwords⟩ := hc.1 td.1 htmem
    obtain ⟨hmem, _⟩ :=
      random_word_clean g td.1 o s (k + td.2) words wk.1 wk.2 hc.2 hlk (by rw [hwk])
    rcases List.mem_cons.mp hw with rfl | hw2
    · exact hwords _ (mem_of_dropLast hmem)
    · exact ih (update_prev_index td.1 prev) wk.2 p.1 p.2
        (update_prev_index_lt _ _ hprev) (by rw [hp]) w hw2

theorem generate_fragment_clean (g : Generator) (o : GenerateOptions) (s : Nat → Nat)
    (hc : generator_clean g) (k : Nat) (ws : List String) (k2 : Nat)
    (h : generate_fragment g o s k = some (ws, k2)) : ∀ w ∈ ws, clean_word w := by
  unfold generate_fragment at h
  by_cases hf : o.Magic_fragment_length = 0
  · rw [if_pos hf] at h
    simp at h
  · rw [if_neg hf, Option.bind_eq_some] at h
    obtain ⟨idx, hidx, h⟩ := h
    rw [Option.bind_eq_some] at h
    obtain ⟨wk, hwk, h⟩ := h
    rw [Option.map_eq_some'] at h
    obtain ⟨p, hp, hpe⟩ := h
    have hws : wk.1 :: p.1 = ws := congrArg Prod.fst hpe
    obtain ⟨hs, hlt⟩ := fragment_start_spec (s k)
    rw [hs] at hidx
    injection hidx with hidx1
    have hidxlt : idx.toNat < 11 := by
      rw [← hidx1, Int.toNat_natCast]
      omega
    obtain ⟨words, hlk, hwords⟩ := hc.1 _ (word_types_getD_mem idx.toNat hidxlt)
    obtain ⟨hmem, _⟩ :=
      random_word_clean g _ o s (k + 1) words wk.1 wk.2 hc.2 hlk (by rw [hwk])
    intro w hw
    rw [← hws] at hw
    rcases List.mem_cons.mp hw with rfl | hw2
    · exact hwords _ (mem_of_dropLast hmem)
    · exact fragment_loop_clean g o s hc _ idx.toNat wk.2 p.1 p.2 hidxlt (by rw [hp]) w hw2

theorem passphrase_iter_clean (g : Generator) (o : GenerateOptions) (s : Nat → Nat)
    (hc : generator_clean g) :
    ∀ n k ws k2, passphrase_iter g o n s k = some (ws, k2) → ∀ w ∈ ws, clean_word w := by
  intro n
  induction n with
  | zero =>
    intro k ws k2 h w hw
    replace h : some (([] : List String), k) = some (ws, k2) := h
    injection h with h1
    have h2 : ([] : List String) = ws := congrArg Prod.fst h1
    rw [← h2] at hw
    simp at hw
  | succ m ih =>
    intro k ws k2 h w hw
    rw [passphrase_iter_succ, Option.bind_eq_some] at h
    obtain ⟨ck, hck, h⟩ := h
    rw [Option.bind_eq_some] at h
    obtain ⟨fk, hfk, h⟩ := h
    rw [Option.map_eq_some'] at h
    obtain ⟨p, hp, hpe⟩ := h
    have hws : ck.1 :: (fk.1 ++ p.1) = ws := congrArg Prod.fst hpe
    rw [← hws] at hw
    obtain ⟨words, hlk, hwords⟩ := hc.1 "conjunction" conjunction_mem
    obtain ⟨hmem, _⟩ :=
      random_word_clean g "conjunction" o s k words ck.1 ck.2 hc.2 hlk (by rw [hck])
    rcases List.mem_cons.mp hw with rfl | hw2
    · exact hwords _ (mem_of_dropLast hmem)
    · rcases List.mem_append.mp hw2 with hw3 | hw3
      · exact generate_fragment_clean g o s hc ck.2 fk.1 fk.2 (by rw [hfk]) w hw3
      · exact ih fk.2 p.1 p.2 (by rw [hp]) w hw3

/-- A successful `generate_passphrase` yields the seeded empty token
followed by clean words. -/
theorem generate_passphrase_clean (g : Generator) (o : GenerateOptions) (s : Nat → Nat)
    (hc : generator_clean g) (k : Nat) (ps : List String) (k2 : Nat)
    (h : generate_passphrase g o s k = some (ps, k2)) :
    ∃ rest, ps = "" :: rest ∧ ∀ w ∈ rest, clean_word w := by
  rw [generate_passphrase_eq, Option.bind_eq_some] at h
  obtain ⟨fk, hfk, h⟩ := h
  rw [Option.map_eq_some'] at h
  obtain ⟨p, hp, hpe⟩ := h
  have hps : "" :: (fk.1 ++ p.1) = ps := congrArg Prod.fst hpe
  refine ⟨fk.1 ++ p.1, hps.symm, ?_⟩
  intro w hw
  rcases List.mem_append.mp hw with hw2 | hw2
  · exact generate_fragment_clean g o s hc k fk.1 fk.2 (by rw [hfk]) w hw2
  · exact passphrase_iter_clean g o s hc _ fk.2 p.1 p.2 (by rw [hp]) w hw2

/-! ### Concrete fixtures used by witnesses and counterexamples -/

/-- A small well-stocked generator: every category holds two words. -/
def sample_generator : Generator :=
  ⟨[("snoun", ["na", "nb"]), ("pnoun", ["pa", "pb"]), ("verb", ["va", "vb"]),
    ("adjective", ["ja", "jb"]), ("adverb", ["da", "db"]),
    ("preposition", ["ra", "rb"]), ("pronoun", ["oa", "ob"]),
    ("conjunction", ["ca", "cb"]), ("sarticle", ["sa", "sb"]),
    ("particle", ["ta", "tb"]), ("interjection", ["ia", "ib"])], []⟩

/-- The constant-zero oracle stream. -/
def s0 : Nat → Nat := fun _ => 0

/-- Offensive filtering switched on. -/
def prude_options : GenerateOptions := ⟨4, 5, 4, true, false, false, false, []⟩

/-- A category holding exactly one word, which is offensive. -/
def offensive_singleton_generator : Generator := ⟨[("snoun", ["badword"])], ["badword"]⟩

/-- A category with one offensive and two acceptable words (the last
unreachable by the draws). -/
def offensive_retry_generator : Generator := ⟨[("snoun", ["bad", "ok", "x"])], ["bad"]⟩

theorem sample_generator_ok : generator_ok sample_generator := by
  intro t ht
  fin_cases ht <;> exact ⟨_, rfl, by decide⟩

/-! ### Claim theorems -/

/-- C1 (counterexample): an options value with `Add_symbol` set and a
one-element `Symbols` list is accepted by `check_options`, yet
`GeneratePassphrases` panics (in `random_choice` over the singleton
symbol list, where `rand.Int` receives max `0`) instead of returning a
list of `Count` passphrases. -/
theorem C1_counterexample :
    check_options sample_generator (some ⟨0, 0, 0, false, false, false, true, ["#"]⟩) =
      .ok ⟨4, 5, 4, false, false, false, true, ["#"]⟩ ∧
    GeneratePassphrases sample_generator
      (some ⟨0, 0, 0, false, false, false, true, ["#"]⟩) s0 = none := ⟨rfl, rfl⟩

/-- C1 (amended): for every non-nil options value accepted by
`check_options`, whenever `GeneratePassphrases` returns a list it has
exactly `Count` elements, where `Count` is the validated count (zero
defaulted to 4); and it does return such a list whenever every category
holds at least two words and, if `Add_symbol` is set, `Symbols` holds at
least two entries.  (A nil options value, though accepted by the
validation, panics on the caller's nil pointer instead of returning a
list.) -/
theorem C1_amended (g : Generator) (o0 o : GenerateOptions) (s : Nat → Nat)
    (hok : check_options g (some o0) = .ok o) :
    (∀ l, GeneratePassphrases g (some o0) s = some (.ok l) → l.length = o.Count) ∧
    (generator_ok g → (o.Add_symbol = true → 2 ≤ o.Symbols.length) →
      ∃ l, GeneratePassphrases g (some o0) s = some (.ok l) ∧ l.length = o.Count) := by
  constructor
  · intro l h
    rw [GeneratePassphrases_ok_eq g o0 s o hok, Option.map_eq_some'] at h
    obtain ⟨p, hp, hpe⟩ := h
    injection hpe with h1
    rw [← h1]
    exact passphrases_loop_length g o _ s o.Count 0 p.1 p.2 (by rw [hp])
  · intro hg hsym
    obtain ⟨_, _, _, _, hf1, _, _⟩ := check_options_ok_pos g (some o0) o hok
    obtain ⟨l, k2, hl, hlen⟩ :=
      passphrases_loop_total g o (if o.No_spaces then "" else " ") s hg (by omega) hsym
        o.Count 0
    refine ⟨l, ?_, hlen⟩
    rw [GeneratePassphrases_ok_eq g o0 s o hok, hl]
    rfl

/-- C1 (witness). -/
theorem C1_amended_witness :
    check_options sample_generator (some ⟨0, 0, 0, false, false, false, false, []⟩) =
      .ok ⟨4, 5, 4, false, false, false, false, default_symbols⟩ ∧
    ∃ l, GeneratePassphrases sample_generator
      (some ⟨0, 0, 0, false, false, false, false, []⟩) s0 = some (.ok l) ∧ l.length = 4 := by
  refine ⟨rfl, ?_⟩
  exact (C1_amended sample_generator ⟨0, 0, 0, false, false, false, false, []⟩
      ⟨4, 5, 4, false, false, false, false, default_symbols⟩ s0 rfl).2
    sample_generator_ok (fun h => by cases h)

/-- C2: calling `GeneratePassphrases` with a nil options pointer does not
succeed.  `check_options` validates a fresh defaulted struct — its
`o = &GenerateOptions{}` rebinds only the callee's copy of the pointer —
and reports no error, after which the caller dereferences the still-nil
pointer at `make([]string, options.Count)`: a nil-pointer panic, not a
list of default-count passphrases. -/
theorem C2_nil_panic :
    check_options sample_generator none =
      .ok ⟨4, 5, 4, false, false, false, false, default_symbols⟩ ∧
    GeneratePassphrases sample_generator none s0 = none := ⟨rfl, rfl⟩

/-- C5: the code deviates from the documented retry contract.  With a
category holding exactly one word, itself offensive, the filtered draw
panics at once (`rand.Int` with max `0`) instead of retrying ten times
and returning the empty placeholder; with a well-formed category the
placeholder is returned exactly when the initial draw and the first nine
redraws are offensive — an acceptable word found on the tenth redraw is
discarded by the `i >= 10` check (third conjunct: one found on the ninth
redraw is kept). -/
theorem C5_divergences :
    random_word offensive_singleton_generator "snoun" prude_options s0 0 = none ∧
    random_word offensive_retry_generator "snoun" prude_options
      (fun k => if k < 10 then 0 else 1) 0 = some ("", 11) ∧
    random_word offensive_retry_generator "snoun" prude_options
      (fun k => if k < 9 then 0 else 1) 0 = some ("ok", 10) := ⟨rfl, rfl, rfl⟩

/-- C7: `check_options` rejects any `Count`, `Length` or
`Magic_fragment_length` above 99 with an error that `GeneratePassphrases`
propagates (so generation does not proceed), and a successful validation
replaces zero values by the defaults 4, 5 and 4 and an empty symbol list
by the 14-symbol default set. -/
theorem C7_check_options (g : Generator) (o : GenerateOptions) (s : Nat → Nat) :
    (count_max < o.Count → ∃ e, check_options g (some o) = .error e) ∧
    (length_max < o.Length → ∃ e, check_options g (some o) = .error e) ∧
    (fragment_max < o.Magic_fragment_length → ∃ e, check_options g (some o) = .error e) ∧
    (∀ e, check_options g (some o) = .error e →
      GeneratePassphrases g (some o) s = some (.error e)) ∧
    (∀ o2, check_options g (some o) = .ok o2 →
      (o.Count = 0 → o2.Count = count_default) ∧
      (o.Length = 0 → o2.Length = length_default) ∧
      (o.Magic_fragment_length = 0 → o2.Magic_fragment_length = fragment_default) ∧
      (o.Symbols = [] → o2.Symbols = default_symbols)) := by
  refine ⟨check_options_reject_count g o, check_options_reject_length g o,
    check_options_reject_fragment g o, fun e he => GeneratePassphrases_error_eq g _ s e he, ?_⟩
  intro o2 h
  obtain ⟨_, _, _, _, ho2⟩ := check_options_ok_inv g (some o) o2 h
  subst ho2
  refine ⟨fun h0 => by simp [h0], fun h0 => by simp [h0], fun h0 => by simp [h0],
    fun h0 => by simp [h0]⟩

/-- C7 (witness). -/
theorem C7_witness :
    (∃ e, check_options sample_generator
      (some ⟨100, 0, 0, false, false, false, false, []⟩) = .error e) ∧
    (⟨4, 2, 3, false, false, false, false, ["!"]⟩ : GenerateOptions).Count = count_default := by
  refine ⟨(C7_check_options sample_generator
    ⟨100, 0, 0, false, false, false, false, []⟩ s0).1 (by decide), ?_⟩
  exact ((C7_check_options sample_generator
      ⟨0, 2, 3, false, false, false, false, ["!"]⟩ s0).2.2.2.2
    ⟨4, 2, 3, false, false, false, false, ["!"]⟩ rfl).1 rfl

/-- C8 (counterexample): the classifier tests the uppercase letter for
the plural flag, so the line `"dogs\tNp"` — lowercase `p` being the
word-list format's plural code — lands in the singular-noun category,
not the plural-noun category the claim states. -/
theorem C8_counterexample :
    classify_line "dogs\tNp" = some ("snoun", "dogs") ∧
    classify_line "dogs\tNp" ≠ some ("pnoun", "dogs") := ⟨rfl, by decide⟩

/-- C8 (amended): `"dog\tNs"` classifies into the singular-noun
category; a noun tag carrying the uppercase `P` the code actually tests
(`"dogs\tNP"`) classifies into the plural-noun category, while
`"dogs\tNp"` classifies into the singular-noun category; and a line that
does not split into exactly two tab-separated fields leaves the word map
unchanged. -/
theorem C8_classification :
    classify_line "dog\tNs" = some ("snoun", "dog") ∧
    classify_line "dogs\tNP" = some ("pnoun", "dogs") ∧
    classify_line "dogs\tNp" = some ("snoun", "dogs") ∧
    ∀ (m : List (String × List String)) (line : String),
      (strings_Split1 '\t' line).length ≠ 2 → load_line m line = m := by
  refine ⟨rfl, rfl, rfl, ?_⟩
  intro m line h
  have hc : classify_line line = none := by
    unfold classify_line
    rw [if_pos h]
  unfold load_line
  rw [hc]

/-- C8 (witness). -/
theorem C8_witness :
    (strings_Split1 '\t' "dog Ns").length ≠ 2 ∧
    load_line initial_word_map "dog Ns" = initial_word_map :=
  ⟨by decide, C8_classification.2.2.2 initial_word_map "dog Ns" (by decide)⟩

/-- C10: `random_choice` over a list of at least two elements only ever
returns the entry at index `r % (len - 1)`, which is strictly below
`len - 1` — the last element is unreachable; consequently `random_digit`
never yields `"9"`, the default symbol draw never yields `"="`, and a
word returned by `random_word` for a mapped type is the empty retry
placeholder or a non-final entry of the type's list. -/
theorem C10_random_choice_skips_last :
    (∀ (l : List String) (r : Nat), 2 ≤ l.length →
      random_choice l r = l.get? (r % (l.length - 1)) ∧
        r % (l.length - 1) + 1 < l.length) ∧
    (∀ r, random_digit r ≠ some "9") ∧
    (∀ r, random_choice default_symbols r ≠ some "=") ∧
    (∀ (g : Generator) (t : String) (o : GenerateOptions) (s : Nat → Nat) (k : Nat)
      (words : List String) (w : String) (k2 : Nat),
      map_lookup g.word_map t = some words →
      random_word g t o s k = some (w, k2) → w = "" ∨ w ∈ words.dropLast) := by
  refine ⟨?_, ?_, ?_, ?_⟩
  · intro l r h
    obtain ⟨heq, hlt⟩ := random_choice_eq l r h
    exact ⟨heq, by omega⟩
  · intro r h
    obtain ⟨_, hmem⟩ :=
      random_choice_some_inv ["0", "1", "2", "3", "4", "5", "6", "7", "8", "9"] r "9" h
    exact absurd hmem (by decide)
  · intro r h
    obtain ⟨_, hmem⟩ := random_choice_some_inv default_symbols r "=" h
    exact absurd hmem (by decide)
  · intro g t o s k words w k2 hl h
    exact random_word_mem g t o s k words w k2 hl h

/-- C10 (witness). -/
theorem C10_witness :
    (2 ≤ (["a", "b"] : List String).length ∧
      random_choice ["a", "b"] 0 = (["a", "b"] : List String).get? (0 % ((["a", "b"] : List String).length - 1)) ∧
      0 % ((["a", "b"] : List String).length - 1) + 1 < (["a", "b"] : List String).length) ∧
    random_digit 3 ≠ some "9" ∧
    (map_lookup sample_generator.word_map "snoun" = some ["na", "nb"] ∧
      ("na" = "" ∨ "na" ∈ (["na", "nb"] : List String).dropLast)) := by
  refine ⟨⟨by decide, C10_random_choice_skips_last.1 ["a", "b"] 0 (by decide)⟩,
    C10_random_choice_skips_last.2.1 3, rfl, ?_⟩
  exact C10_random_choice_skips_last.2.2.2 sample_generator "snoun"
    default_GenerateOptions s0 0 ["na", "nb"] "na" 1 rfl rfl

/-- C3 (counterexample): the starting category of a fragment is
`word_types[random_range(len(word_types)-1)]`, a draw over `[0, 10)`, so
the eleventh category — `"interjection"` — is never the starting
category, for any random input. -/
theorem C3_counterexample :
    ¬ ∃ r : Nat, (fragment_start_index r).map (fun i => word_types.getD i.toNat "") =
      some "interjection" := by
  rintro ⟨r, hr⟩
  obtain ⟨hs, hlt⟩ := fragment_start_spec r
  rw [hs, Option.map_some'] at hr
  injection hr with h1
  rw [Int.toNat_natCast] at h1
  have hall : ∀ i < 10, word_types.getD i "" ≠ "interjection" := by decide
  exact hall _ hlt h1

/-- C3 (amended): the starting category of every fragment is drawn
uniformly among the first ten categories only: every start lies in
`word_types.take 10`, and each of those ten categories is reachable for
some random input. -/
theorem C3_amended :
    (∀ r : Nat, ∃ t, (fragment_start_index r).map (fun i => word_types.getD i.toNat "") =
        some t ∧ t ∈ word_types.take 10) ∧
    (∀ t ∈ word_types.take 10, ∃ r : Nat,
      (fragment_start_index r).map (fun i => word_types.getD i.toNat "") = some t) := by
  constructor
  · intro r
    obtain ⟨hs, hlt⟩ := fragment_start_spec r
    refine ⟨word_types.getD (r % 10) "", ?_, ?_⟩
    · rw [hs, Option.map_some', Int.toNat_natCast]
    · have hall : ∀ i < 10, word_types.getD i "" ∈ word_types.take 10 := by decide
      exact hall _ hlt
  · intro t ht
    have hfind : ∀ u ∈ word_types.take 10, ∃ j, j < 10 ∧ word_types.getD j "" = u := by decide
    obtain ⟨j, hj, hjt⟩ := hfind t ht
    refine ⟨j, ?_⟩
    obtain ⟨hs, _⟩ := fragment_start_spec j
    rw [hs, Option.map_some', Int.toNat_natCast, Nat.mod_eq_of_lt hj, hjt]

/-- C3 (witness). -/
theorem C3_witness :
    "snoun" ∈ word_types.take 10 ∧
    ∃ r : Nat, (fragment_start_index r).map (fun i => word_types.getD i.toNat "") =
      some "snoun" :=
  ⟨by decide, C3_amended.2 "snoun" (by decide)⟩

/-- C4 (counterexample): for the category `"snoun"` (index 0), whose
successor list is `[adverb, verb, pronoun, conjunction]`, the selection
draws over `[0, len-1) = [0, 3)`, so the last successor `"conjunction"`
is unreachable for every random input, contradicting the uniform choice
among all of S the claim states. -/
theorem C4_counterexample :
    grammar_rules "snoun" = ["adverb", "verb", "pronoun", "conjunction"] ∧
    ¬ ∃ (r d : Nat), next_word_type 0 r = some ("conjunction", d) := by
  refine ⟨rfl, ?_⟩
  rintro ⟨r, d, hr⟩
  obtain ⟨heq, hlt⟩ := next_word_type_multi 0 r (by decide)
  rw [heq, Option.map_eq_some'] at hr
  obtain ⟨t, hget, hte⟩ := hr
  have ht : t = "conjunction" := congrArg Prod.fst hte
  rw [ht] at hget
  have h3 : (grammar_rules (word_types.getD 0 "")).length - 1 = 3 := by decide
  rw [h3] at hget hlt
  have hall : ∀ i < 3,
      (grammar_rules (word_types.getD 0 "")).get? i ≠ some "conjunction" := by decide
  exact hall _ hlt hget

/-- C4 (amended): for a non-initial slot with successor list S of the
current category: if `|S| > 1` the next category is drawn uniformly among
the first `|S| - 1` members only (each of those reachable, the last
member never), and if `|S| = 1` the single successor is taken
deterministically with no random draw. -/
theorem C4_amended (prev : Nat) :
    (1 < (grammar_rules (word_types.getD prev "")).length →
      (∀ r : Nat, ∃ t, next_word_type prev r = some (t, 1) ∧
        t ∈ (grammar_rules (word_types.getD prev "")).take
          ((grammar_rules (word_types.getD prev "")).length - 1)) ∧
      (∀ t ∈ (grammar_rules (word_types.getD prev "")).take
          ((grammar_rules (word_types.getD prev "")).length - 1),
        ∃ r : Nat, next_word_type prev r = some (t, 1))) ∧
    ((grammar_rules (word_types.getD prev "")).length = 1 →
      ∀ r : Nat, next_word_type prev r =
        some ((grammar_rules (word_types.getD prev "")).getD 0 "", 0)) := by
  constructor
  · intro hmulti
    constructor
    · intro r
      obtain ⟨heq, hlt⟩ := next_word_type_multi prev r hmulti
      have hidx : r % ((grammar_rules (word_types.getD prev "")).length - 1) <
          (grammar_rules (word_types.getD prev "")).length := by omega
      refine ⟨(grammar_rules (word_types.getD prev "")).get ⟨_, hidx⟩, ?_, ?_⟩
      · rw [heq, List.get?_eq_get hidx]
        rfl
      · apply List.get?_mem (n := r % ((grammar_rules (word_types.getD prev "")).length - 1))
        rw [List.get?_take hlt]
        exact List.get?_eq_get hidx
    · intro t ht
      obtain ⟨j, hget⟩ := List.mem_iff_get?.mp ht
      have hj : j < (grammar_rules (word_types.getD prev "")).length - 1 := by
        have hjlen := List.get?_eq_some.mp hget
        obtain ⟨hjl, _⟩ := hjlen
        have := List.length_take ((grammar_rules (word_types.getD prev "")).length - 1)
          (grammar_rules (word_types.getD prev ""))
        omega
      rw [List.get?_take hj] at hget
      refine ⟨j, ?_⟩
      obtain ⟨heq, _⟩ := next_word_type_multi prev j hmulti
      rw [heq, Nat.mod_eq_of_lt hj, hget]
      rfl
  · intro hsingle r
    exact next_word_type_single prev r hsingle

/-- C4 (witness). -/
theorem C4_witness :
    (1 < (grammar_rules (word_types.getD 0 "")).length ∧
      (∃ t, next_word_type 0 5 = some (t, 1) ∧
        t ∈ (grammar_rules (word_types.getD 0 "")).take
          ((grammar_rules (word_types.getD 0 "")).length - 1))) ∧
    ((grammar_rules (word_types.getD 4 "")).length = 1 ∧
      next_word_type 4 7 = some ((grammar_rules (word_types.getD 4 "")).getD 0 "", 0)) :=
  ⟨⟨by decide, ((C4_amended 0).1 (by decide)).1 5⟩,
   ⟨by decide, (C4_amended 4).2 (by decide) 7⟩⟩

/-- Per-passphrase shape of the assembled strings: with a clean word map,
a spaced passphrase splits into exactly `Length` tokens, and a
separator-free passphrase contains no space at all. -/
theorem passphrases_loop_item (g : Generator) (o : GenerateOptions) (sep : String)
    (s : Nat → Nat) (hc : generator_clean g) (hL : 1 ≤ o.Length)
    (hsym : ∀ sym ∈ o.Symbols, ∀ c ∈ String.data sym, c ≠ ' ') :
    ∀ n k l k2, passphrases_loop g o sep n s k = some (l, k2) → ∀ p ∈ l,
      (sep = " " → (strings_Split1 ' ' p).length = o.Length) ∧
      (sep = "" → ∀ c ∈ p.data, c ≠ ' ') := by
  intro n
  induction n with
  | zero =>
    intro k l k2 h p hp
    replace h : some (([] : List String), k) = some (l, k2) := h
    injection h with h1
    have h2 : ([] : List String) = l := congrArg Prod.fst h1
    rw [← h2] at hp
    simp at hp
  | succ m ih =>
    intro k l k2 h p hp
    rw [passphrases_loop_succ, Option.bind_eq_some] at h
    obtain ⟨pk, hpk, h⟩ := h
    by_cases hguard : o.Length + 1 ≤ (strings_Split1 ' ' (strings_Join pk.1 " ")).length
    case neg =>
      rw [if_neg hguard] at h
      simp at h
    rw [if_pos hguard, Option.bind_eq_some] at h
    obtain ⟨p1, hp1, h⟩ := h
    rw [Option.bind_eq_some] at h
    obtain ⟨p2, hp2, h⟩ := h
    rw [Option.map_eq_some'] at h
    obtain ⟨pr, hpr, hpe⟩ := h
    have hl : p2.1 :: pr.1 = l := congrArg Prod.fst hpe
    rw [← hl] at hp
    rcases List.mem_cons.mp hp with rfl | hpmem
    swap
    · exact ih p2.2 pr.1 pr.2 (by rw [hpr]) p hpmem
    obtain ⟨rest, hps, hrestcl⟩ :=
      generate_passphrase_clean g o s hc k pk.1 pk.2 (by rw [hpk])
    have hnosp : ∀ w ∈ pk.1, ' ' ∉ w.data := by
      rw [hps]
      intro w hw
      rcases List.mem_cons.mp hw with rfl | hw2
      · simp
      · exact clean_no_space (hrestcl w hw2)
    have hsplit : strings_Split1 ' ' (strings_Join pk.1 " ") = pk.1 :=
      split_join_clean pk.1 (by rw [hps]; simp) hnosp
    have hguard2 : o.Length ≤ rest.length := by
      rw [hsplit, hps] at hguard
      simpa using hguard
    have htslen : (rest.take o.Length).length = o.Length := by
      rw [List.length_take]
      omega
    have htscl : ∀ w ∈ rest.take o.Length, clean_word w :=
      fun w hw => hrestcl w (List.mem_of_mem_take hw)
    have htsne : rest.take o.Length ≠ [] := by
      intro h0
      rw [h0] at htslen
      simp at htslen
      omega
    have htake : (strings_Split1 ' ' (strings_Join pk.1 " ")).take (o.Length + 1) =
        "" :: rest.take o.Length := by
      rw [hsplit, hps, List.take_succ_cons]
    rw [htake] at hp1
    constructor
    · intro hsep
      subst hsep
      rw [trim_join_empty_cons (rest.take o.Length) htsne htscl] at hp1
      have hbase : (strings_Split1 ' ' (strings_Join (rest.take o.Length) " ")).length =
          o.Length := by
        rw [split_join_clean (rest.take o.Length) htsne
          (fun w hw => clean_no_space (htscl w hw))]
        exact htslen
      have hp1fact : (strings_Split1 ' ' p1.1).length = o.Length := by
        cases hAd : o.Add_digit
        · rw [hAd, if_neg (by simp)] at hp1
          have h1 : strings_Join (rest.take o.Length) " " = p1.1 :=
            congrArg Prod.fst (Option.some_inj.mp hp1)
          rw [← h1]
          exact hbase
        · rw [hAd, if_pos rfl, Option.map_eq_some'] at hp1
          obtain ⟨d, hd, hde⟩ := hp1
          obtain ⟨_, hdmem⟩ := random_choice_some_inv _ (s pk.2) d hd
          have hdns : ∀ x ∈ d.data, x ≠ ' ' := by
            have hdm := mem_of_dropLast hdmem
            fin_cases hdm <;> decide
          have h1 : strings_Join (rest.take o.Length) " " ++ d = p1.1 :=
            congrArg Prod.fst hde
          rw [← h1, split_length_append _ d hdns]
          exact hbase
      cases hAs : o.Add_symbol
      · rw [hAs, if_neg (by simp)] at hp2
        have h1 : p1 = p2 := Option.some_inj.mp hp2
        rw [← h1]
        exact hp1fact
      · rw [hAs, if_pos rfl, Option.map_eq_some'] at hp2
        obtain ⟨c, hcs, hce⟩ := hp2
        obtain ⟨_, hcmem⟩ := random_choice_some_inv o.Symbols (s p1.2) c hcs
        have hcns : ∀ x ∈ c.data, x ≠ ' ' := hsym c (mem_of_dropLast hcmem)
        have h1 : p1.1 ++ c = p2.1 := congrArg Prod.fst hce
        rw [← h1, split_length_append _ c hcns]
        exact hp1fact
    · intro hsep
      subst hsep
      have hPPns : ∀ x ∈ (strings_TrimSpace
          (strings_Join ("" :: rest.take o.Length) "")).data, x ≠ ' ' := by
        intro x hx hxc
        have hx2 := mem_trim _ x hx
        rw [strings_Join_data] at hx2
        rcases mem_join_list _ _ x hx2 with h0 | ⟨lst, hlst, hxl⟩
        · simp at h0
        · rcases List.mem_map.mp hlst with ⟨w, hw, rfl⟩
          rcases List.mem_cons.mp hw with rfl | hw2
          · simp at hxl
          · exact clean_no_space (htscl w hw2) (hxc ▸ hxl)
      have hp1fact : ∀ x ∈ p1.1.data, x ≠ ' ' := by
        cases hAd : o.Add_digit
        · rw [hAd, if_neg (by simp)] at hp1
          have h1 : strings_TrimSpace (strings_Join ("" :: rest.take o.Length) "") = p1.1 :=
            congrArg Prod.fst (Option.some_inj.mp hp1)
          rw [← h1]
          exact hPPns
        · rw [hAd, if_pos rfl, Option.map_eq_some'] at hp1
          obtain ⟨d, hd, hde⟩ := hp1
          obtain ⟨_, hdmem⟩ := random_choice_some_inv _ (s pk.2) d hd
          have hdns : ∀ x ∈ d.data, x ≠ ' ' := by
            have hdm := mem_of_dropLast hdmem
            fin_cases hdm <;> decide
          have h1 : strings_TrimSpace (strings_Join ("" :: rest.take o.Length) "") ++ d =
              p1.1 := congrArg Prod.fst hde
          intro x hx
          rw [← h1, show (strings_TrimSpace (strings_Join ("" :: rest.take o.Length) "")
              ++ d).data = (strings_TrimSpace
              (strings_Join ("" :: rest.take o.Length) "")).data ++ d.data from rfl] at hx
          rcases List.mem_append.mp hx with hx1 | hx1
          · exact hPPns x hx1
          · exact hdns x hx1
      cases hAs : o.Add_symbol
      · rw [hAs, if_neg (by simp)] at hp2
        have h1 : p1 = p2 := Option.some_inj.mp hp2
        rw [← h1]
        exact hp1fact
      · rw [hAs, if_pos rfl, Option.map_eq_some'] at hp2
        obtain ⟨c, hcs, hce⟩ := hp2
        obtain ⟨_, hcmem⟩ := random_choice_some_inv o.Symbols (s p1.2) c hcs
        have hcns : ∀ x ∈ c.data, x ≠ ' ' := hsym c (mem_of_dropLast hcmem)
        have h1 : p1.1 ++ c = p2.1 := congrArg Prod.fst hce
        intro x hx
        rw [← h1, show (p1.1 ++ c).data = p1.1.data ++ c.data from rfl] at hx
        rcases List.mem_append.mp hx with hx1 | hx1
        · exact hp1fact x hx1
        · exact hcns x hx1

/-- C6 (counterexample): with the default validated options
(`Length = 5`, `no_spaces` off) a returned passphrase splits on single
spaces into 5 tokens, not the `Length + 1 = 6` the claim states — the
leading empty token seeded by `make([]string, 1)` is consumed by the
truncation and then removed by `TrimSpace`. -/
theorem C6_counterexample :
    check_options sample_generator (some ⟨0, 0, 0, false, false, false, false, []⟩) =
      .ok ⟨4, 5, 4, false, false, false, false, default_symbols⟩ ∧
    GeneratePassphrases sample_generator
      (some ⟨0, 0, 0, false, false, false, false, []⟩) s0 =
      some (.ok ["na da va na ca", "na da va na ca", "na da va na ca", "na da va na ca"]) ∧
    (strings_Split1 ' ' "na da va na ca").length = 5 := ⟨rfl, rfl, rfl⟩

/-- C6 (amended): for every accepted options value, provided the word map
holds only nonempty whitespace-free words, the offensive set is empty and
the validated symbols contain no space: with `no_spaces = false` each
returned passphrase splits on single spaces into exactly `Length` tokens
(not `Length + 1`), and with `no_spaces = true` it contains no space
characters.  (Non-nil options only: a nil options value panics before
assembling any passphrase.) -/
theorem C6_amended (g : Generator) (o0 o : GenerateOptions) (s : Nat → Nat)
    (l : List String)
    (hc : generator_clean g)
    (hok : check_options g (some o0) = .ok o)
    (hsym : ∀ sym ∈ o.Symbols, ∀ c ∈ String.data sym, c ≠ ' ')
    (hres : GeneratePassphrases g (some o0) s = some (.ok l)) :
    ∀ p ∈ l,
      (o.No_spaces = false → (strings_Split1 ' ' p).length = o.Length) ∧
      (o.No_spaces = true → ∀ c ∈ p.data, c ≠ ' ') := by
  rw [GeneratePassphrases_ok_eq g o0 s o hok, Option.map_eq_some'] at hres
  obtain ⟨p0, hp0, hpe⟩ := hres
  injection hpe with h1
  obtain ⟨_, _, hL, _, _, _, _⟩ := check_options_ok_pos g (some o0) o hok
  intro p hp
  rw [← h1] at hp
  have hitem := passphrases_loop_item g o (if o.No_spaces then "" else " ") s hc hL hsym
    o.Count 0 p0.1 p0.2 (by rw [hp0]) p hp
  constructor
  · intro hN
    refine hitem.1 ?_
    rw [hN]
    rfl
  · intro hN
    refine hitem.2 ?_
    rw [hN]
    rfl

/-- C6 (witness). -/
theorem C6_witness :
    "na da va na ca" ∈
      ["na da va na ca", "na da va na ca", "na da va na ca", "na da va na ca"] ∧
    (strings_Split1 ' ' "na da va na ca").length = 5 := by
  have h := C6_amended sample_generator ⟨0, 0, 0, false, false, false, false, []⟩
    ⟨4, 5, 4, false, false, false, false, default_symbols⟩ s0
    ["na da va na ca", "na da va na ca", "na da va na ca", "na da va na ca"]
    ⟨by
      intro t ht
      fin_cases ht <;>
        exact ⟨_, rfl, by intro w hw; fin_cases hw <;> exact ⟨by decide, by decide⟩⟩,
      rfl⟩
    rfl (by decide) rfl "na da va na ca" (by decide)
  exact ⟨by decide, h.1 rfl⟩

end Wordentropy
